import Mathlib

/-!
Alternating disks: `Project1/disks.hpp`

Shallow embedding of the disk row (`disk_state`), the sort result
(`sorted_disks`) and the two sorting algorithms (`sort_left_to_right`,
`sort_lawnmower`).

Modelling conventions.

* A row is the list of its colours (`std::vector<disk_color> _colors`).
* `size_t` is 64 bits wide. The constructor's product `light_count * 2` is taken
  modulo `2 ^ 64`. Every other `size_t` value is a vector length, an index below
  it or a loop bound, none of which wraps around on a row that the sorts accept;
  the swap counter is reduced modulo `2 ^ 32` when it is returned, which absorbs
  a wrap modulo `2 ^ 64`. The `unsigned int` counter of `is_sorted` is a natural
  number.
* `unsigned` is 32 bits wide: the conversion of the `size_t` swap counter to the
  `unsigned` parameter of the `sorted_disks` constructor is `% 2 ^ 32`.
* A failed `assert` and an exception thrown by `std::vector::at` both end the
  computation without a result: the operation returns `none`.
* A `for` loop whose bound does not change while it runs is a recursive
  function on the number of iterations still to do, carrying the loop index.
-/

namespace Disks

/-- State of one disk, either light or dark (`enum disk_color`). -/
inductive disk_color where
  | DISK_LIGHT
  | DISK_DARK
deriving DecidableEq, Repr

open disk_color

/-- Data structure for the state of one row of disks (`class disk_state`). -/
structure disk_state where
  _colors : List disk_color
deriving DecidableEq, Repr

namespace disk_state

/-- Member `total_count`: `_colors.size()`. -/
def total_count (s : disk_state) : Nat :=
  s._colors.length

/-- Member `dark_count`: `total_count() / 2`. -/
def dark_count (s : disk_state) : Nat :=
  s.total_count / 2

/-- Member `light_count`: `dark_count()`. -/
def light_count (s : disk_state) : Nat :=
  s.dark_count

/-- Member `is_index`: `i < total_count()`. -/
def is_index (s : disk_state) (i : Nat) : Bool :=
  decide (i < s.total_count)

/-- Member `get`: `assert(is_index(index)); return _colors[index];`. -/
def get (s : disk_state) (index : Nat) : Option disk_color :=
  if s.is_index index then s._colors[index]? else none

/-- Member `swap`: both index assertions, then `std::swap` of the two cells. -/
def swap (s : disk_state) (left_index : Nat) : Option disk_state :=
  if s.is_index left_index then
    let right_index := left_index + 1
    if s.is_index right_index then do
      let a ← s._colors[left_index]?
      let b ← s._colors[right_index]?
      pure ⟨(s._colors.set left_index b).set right_index a⟩
    else none
  else none

/-- Checked access `_colors.at(i)`: throws (here `none`) outside the vector. -/
def colors_at (s : disk_state) (i : Nat) : Option disk_color :=
  s._colors[i]?

/-- Constructor loop `for (size_t i = 1; i < _colors.size(); i += 2) _colors[i] = DISK_DARK;`.
The first argument is fuel; the loop test is evaluated at every iteration. -/
def ctor_loop : Nat → Nat → List disk_color → List disk_color
  | 0, _, cs => cs
  | fuel + 1, i, cs =>
    if i < cs.length then ctor_loop fuel (i + 2) (cs.set i DISK_DARK) else cs

/-- Constructor `disk_state(size_t light_count)`: `light_count * 2` light disks, the product
being a `size_t`, hence modulo `2 ^ 64`; the assertion `dark_count() > 0`; then every odd
index is painted dark. -/
def ctor (light_count : Nat) : Option disk_state :=
  let s : disk_state := ⟨List.replicate (light_count * 2 % 2 ^ 64) DISK_LIGHT⟩
  if 0 < s.dark_count then
    some ⟨ctor_loop s._colors.length 1 s._colors⟩
  else none

/-- Loop of `is_alternating`: `for (size_t i = 1; i < _colors.size()-1; i++)`, with its two
early returns. The first argument counts the iterations left, the second is `i`. -/
def is_alternating_loop (s : disk_state) : Nat → Nat → Option Bool
  | 0, _ => some true
  | k + 1, i => do
    let ci ← s.colors_at i
    if ci = DISK_LIGHT then
      let cn ← s.colors_at (i + 1)
      if cn ≠ DISK_DARK then some false else is_alternating_loop s k (i + 1)
    else if ci = DISK_DARK then
      let cn ← s.colors_at (i + 1)
      if cn ≠ DISK_LIGHT then some false else is_alternating_loop s k (i + 1)
    else is_alternating_loop s k (i + 1)

/-- Member `is_alternating`. -/
def is_alternating (s : disk_state) : Option Bool := do
  let c0 ← s.colors_at 0
  if c0 ≠ DISK_LIGHT then some false
  else is_alternating_loop s (s._colors.length - 1 - 1) 1

/-- Loop of `is_sorted`: `for (unsigned int i = 0; i < _colors.size()/2; i++)`, returning
false at the first dark disk. -/
def is_sorted_loop (s : disk_state) : Nat → Nat → Option Bool
  | 0, _ => some true
  | k + 1, i => do
    let ci ← s.colors_at i
    if ci = DISK_DARK then some false else is_sorted_loop s k (i + 1)

/-- Member `is_sorted`. -/
def is_sorted (s : disk_state) : Option Bool :=
  is_sorted_loop s (s._colors.length / 2) 0

/-- Run of the member `swap` on the object itself: the row held by the object when the call
stops, and whether it ran to its end. Each assertion stops the call before the only write,
the `std::swap` of the two cells. -/
def swap_run (s : disk_state) (left_index : Nat) : disk_state × Bool :=
  if s.is_index left_index then
    let right_index := left_index + 1
    if s.is_index right_index then
      match s._colors[left_index]?, s._colors[right_index]? with
      | some a, some b => (⟨(s._colors.set left_index b).set right_index a⟩, true)
      | _, _ => (s, false)
    else (s, false)
  else (s, false)

/-- Library algorithm `std::equal(first1, last1, first2)` on colour sequences: it walks the
first range and compares it with what starts at `first2`, returning false at the first
difference; when the second range ends first it reads past its end, which is undefined
behaviour (`none`). -/
def std_equal : List disk_color → List disk_color → Option Bool
  | [], _ => some true
  | _ :: _, [] => none
  | x :: xs, y :: ys => if x = y then std_equal xs ys else some false

/-- Equality operator `operator==`:
`std::equal(_colors.begin(), _colors.end(), rhs._colors.begin())`. -/
def operator_eq (s rhs : disk_state) : Option Bool :=
  std_equal s._colors rhs._colors

end disk_state

/-- Output of the alternating disks problem (`class sorted_disks`): the final row and the
swap count, an `unsigned`. -/
structure sorted_disks where
  _after : disk_state
  _swap_count : Nat
deriving DecidableEq, Repr

namespace sorted_disks

/-- Constructor `sorted_disks(const disk_state& after, unsigned swap_count)`; the argument
passed by the sorts is a `size_t`, converted to `unsigned`. -/
def ctor (after : disk_state) (swap_count : Nat) : sorted_disks :=
  ⟨after, swap_count % 2 ^ 32⟩

/-- Member `after`. -/
def after (r : sorted_disks) : disk_state :=
  r._after

/-- Member `swap_count`. -/
def swap_count (r : sorted_disks) : Nat :=
  r._swap_count

end sorted_disks

/-- Working state of a sort: the local row `sorted` and the local counter `count`. -/
abbrev sort_state := disk_state × Nat

/-- Body of the left-to-right inner loop at index `j`:
`if (get(j) == DISK_DARK) if (get(j+1) == DISK_LIGHT) { swap(j); count++; }`. -/
def ltr_body (st : sort_state) (j : Nat) : Option sort_state := do
  let cj ← st.1.get j
  if cj = DISK_DARK then
    let cn ← st.1.get (j + 1)
    if cn = DISK_LIGHT then
      let s ← st.1.swap j
      pure (s, st.2 + 1)
    else pure st
  else pure st

/-- Left-to-right inner loop `for (size_t j = 0; j < sorted.total_count()-1; j++)`: the
first argument counts the iterations left, the second is `j`. -/
def ltr_loop : Nat → Nat → sort_state → Option sort_state
  | 0, _, st => some st
  | k + 1, j, st => ltr_body st j >>= ltr_loop k (j + 1)

/-- One whole left-to-right pass over the row. -/
def ltr_pass (st : sort_state) : Option sort_state :=
  ltr_loop (st.1.total_count - 1) 0 st

/-- Body of the right-to-left inner loop at index `j`:
`if (get(j) == DISK_LIGHT) if (get(j-1) == DISK_DARK) { swap(j-1); count++; }`. -/
def rtl_body (st : sort_state) (j : Nat) : Option sort_state := do
  let cj ← st.1.get j
  if cj = DISK_LIGHT then
    let cp ← st.1.get (j - 1)
    if cp = DISK_DARK then
      let s ← st.1.swap (j - 1)
      pure (s, st.2 + 1)
    else pure st
  else pure st

/-- Right-to-left inner loop `for (size_t j = total_count()-1; j > 0; j--)`: the first
argument is `j` itself. -/
def rtl_loop : Nat → sort_state → Option sort_state
  | 0, st => some st
  | j + 1, st => rtl_body st (j + 1) >>= rtl_loop j

/-- One whole right-to-left pass over the row. -/
def rtl_pass (st : sort_state) : Option sort_state :=
  rtl_loop (st.1.total_count - 1) st

/-- Outer loop of `sort_left_to_right`: `for (size_t i = 0; i < sorted.dark_count(); i++)`,
by the number of iterations left. -/
def ltr_outer : Nat → sort_state → Option sort_state
  | 0, st => some st
  | k + 1, st => ltr_pass st >>= ltr_outer k

/-- Outer loop of `sort_lawnmower`: `for (size_t i = 0; i < sorted.dark_count()/2; i++)`, a
left-to-right pass followed by a right-to-left pass. -/
def lawnmower_outer : Nat → sort_state → Option sort_state
  | 0, st => some st
  | k + 1, st => ltr_pass st >>= rtl_pass >>= lawnmower_outer k

/-- Algorithm that sorts disks using the left-to-right algorithm. -/
def sort_left_to_right (before : disk_state) : Option sorted_disks :=
  if before.is_alternating = some true then do
    let st ← ltr_outer before.dark_count (before, 0)
    pure (sorted_disks.ctor st.1 st.2)
  else none

/-- Algorithm that sorts disks using the lawnmower algorithm. -/
def sort_lawnmower (before : disk_state) : Option sorted_disks :=
  if before.is_alternating = some true then do
    let st ← lawnmower_outer (before.dark_count / 2) (before, 0)
    pure (sorted_disks.ctor st.1 st.2)
  else none


/-! ## The calls made by the loops -/

/-- One call of `get` or `swap` made by a sort loop, with the loop index `j` at that moment
and the `total_count()` of the row it is made on. -/
inductive loop_call where
  | get_j (j total : Nat)
  | get_next (j total : Nat)
  | get_prev (j total : Nat)
  | swap_j (j total : Nat)
  | swap_prev (j total : Nat)
deriving DecidableEq, Repr

/-- The index of the call, and for `swap` the index after it, are below `total_count()`; for
`get(j-1)` and `swap(j-1)` moreover `j` is not 0, so that `j-1` does not wrap around. -/
def loop_call.in_range : loop_call → Prop
  | .get_j j total => j < total
  | .get_next j total => j + 1 < total
  | .get_prev j total => 1 ≤ j ∧ j - 1 < total
  | .swap_j j total => j < total ∧ j + 1 < total
  | .swap_prev j total => 1 ≤ j ∧ j - 1 < total ∧ j - 1 + 1 < total

/-- Calls made by the body of the left-to-right inner loop at index `j`: `get(j)`, then
`get(j+1)` when the first disk is dark, then `swap(j)` when the second is light. -/
def ltr_body_calls (st : sort_state) (j : Nat) : List loop_call :=
  loop_call.get_j j st.1.total_count ::
    (if st.1.get j = some DISK_DARK then
      loop_call.get_next j st.1.total_count ::
        (if st.1.get (j + 1) = some DISK_LIGHT then [loop_call.swap_j j st.1.total_count]
          else [])
    else [])

/-- Calls made by the left-to-right inner loop, in order; it stops with the body. -/
def ltr_loop_calls : Nat → Nat → sort_state → List loop_call
  | 0, _, _ => []
  | k + 1, j, st =>
    ltr_body_calls st j ++
      (match ltr_body st j with
        | some st' => ltr_loop_calls k (j + 1) st'
        | none => [])

/-- Calls made by one whole left-to-right pass. -/
def ltr_pass_calls (st : sort_state) : List loop_call :=
  ltr_loop_calls (st.1.total_count - 1) 0 st

/-- Calls made by the body of the right-to-left inner loop at index `j`: `get(j)`, then
`get(j-1)` when the first disk is light, then `swap(j-1)` when the second is dark. -/
def rtl_body_calls (st : sort_state) (j : Nat) : List loop_call :=
  loop_call.get_j j st.1.total_count ::
    (if st.1.get j = some DISK_LIGHT then
      loop_call.get_prev j st.1.total_count ::
        (if st.1.get (j - 1) = some DISK_DARK then [loop_call.swap_prev j st.1.total_count]
          else [])
    else [])

/-- Calls made by the right-to-left inner loop, in order. -/
def rtl_loop_calls : Nat → sort_state → List loop_call
  | 0, _ => []
  | j + 1, st =>
    rtl_body_calls st (j + 1) ++
      (match rtl_body st (j + 1) with
        | some st' => rtl_loop_calls j st'
        | none => [])

/-- Calls made by one whole right-to-left pass. -/
def rtl_pass_calls (st : sort_state) : List loop_call :=
  rtl_loop_calls (st.1.total_count - 1) st

/-- Calls made by the outer loop of `sort_left_to_right`. -/
def ltr_outer_calls : Nat → sort_state → List loop_call
  | 0, _ => []
  | k + 1, st =>
    ltr_pass_calls st ++
      (match ltr_pass st with
        | some st' => ltr_outer_calls k st'
        | none => [])

/-- Calls made by the outer loop of `sort_lawnmower`. -/
def lawnmower_outer_calls : Nat → sort_state → List loop_call
  | 0, _ => []
  | k + 1, st =>
    ltr_pass_calls st ++
      (match ltr_pass st with
        | some st1 =>
          rtl_pass_calls st1 ++
            (match rtl_pass st1 with
              | some st2 => lawnmower_outer_calls k st2
              | none => [])
        | none => [])

/-- Calls of `get` and `swap` made by the loops of `sort_left_to_right`. -/
def sort_left_to_right_calls (before : disk_state) : List loop_call :=
  if before.is_alternating = some true then ltr_outer_calls before.dark_count (before, 0)
  else []

/-- Calls of `get` and `swap` made by the loops of `sort_lawnmower`. -/
def sort_lawnmower_calls (before : disk_state) : List loop_call :=
  if before.is_alternating = some true then
    lawnmower_outer_calls (before.dark_count / 2) (before, 0)
  else []

/-! ## The sorts with the caller's row in the state -/

/-- Objects a running sort can name: the caller's row, reached through the parameter
`const disk_state& before`, the local row `sorted` and the local counter `count`. -/
structure sort_env where
  before : disk_state
  sorted : disk_state
  count : Nat
deriving DecidableEq, Repr

/-- Body of the left-to-right inner loop as a step on the three objects. -/
def ltr_body_env (e : sort_env) (j : Nat) : Option sort_env := do
  let cj ← e.sorted.get j
  if cj = DISK_DARK then
    let cn ← e.sorted.get (j + 1)
    if cn = DISK_LIGHT then
      let s ← e.sorted.swap j
      pure { e with sorted := s, count := e.count + 1 }
    else pure e
  else pure e

/-- Left-to-right inner loop on the three objects. -/
def ltr_loop_env : Nat → Nat → sort_env → Option sort_env
  | 0, _, e => some e
  | k + 1, j, e => ltr_body_env e j >>= ltr_loop_env k (j + 1)

/-- One left-to-right pass on the three objects. -/
def ltr_pass_env (e : sort_env) : Option sort_env :=
  ltr_loop_env (e.sorted.total_count - 1) 0 e

/-- Body of the right-to-left inner loop as a step on the three objects. -/
def rtl_body_env (e : sort_env) (j : Nat) : Option sort_env := do
  let cj ← e.sorted.get j
  if cj = DISK_LIGHT then
    let cp ← e.sorted.get (j - 1)
    if cp = DISK_DARK then
      let s ← e.sorted.swap (j - 1)
      pure { e with sorted := s, count := e.count + 1 }
    else pure e
  else pure e

/-- Right-to-left inner loop on the three objects. -/
def rtl_loop_env : Nat → sort_env → Option sort_env
  | 0, e => some e
  | j + 1, e => rtl_body_env e (j + 1) >>= rtl_loop_env j

/-- One right-to-left pass on the three objects. -/
def rtl_pass_env (e : sort_env) : Option sort_env :=
  rtl_loop_env (e.sorted.total_count - 1) e

/-- Outer loop of `sort_left_to_right` on the three objects. -/
def ltr_outer_env : Nat → sort_env → Option sort_env
  | 0, e => some e
  | k + 1, e => ltr_pass_env e >>= ltr_outer_env k

/-- Outer loop of `sort_lawnmower` on the three objects. -/
def lawnmower_outer_env : Nat → sort_env → Option sort_env
  | 0, e => some e
  | k + 1, e => ltr_pass_env e >>= rtl_pass_env >>= lawnmower_outer_env k

/-- Run of `sort_left_to_right` on the caller's row: the assertion on `before`, the copy
`disk_state sorted = before`, the loops; it yields the three objects as they are when the
function returns, and the returned `sorted_disks`. -/
def sort_left_to_right_env (caller : disk_state) : Option (sort_env × sorted_disks) :=
  if caller.is_alternating = some true then do
    let e ← ltr_outer_env caller.dark_count ⟨caller, caller, 0⟩
    pure (e, sorted_disks.ctor e.sorted e.count)
  else none

/-- Run of `sort_lawnmower` on the caller's row, as for `sort_left_to_right_env`. -/
def sort_lawnmower_env (caller : disk_state) : Option (sort_env × sorted_disks) :=
  if caller.is_alternating = some true then do
    let e ← lawnmower_outer_env (caller.dark_count / 2) ⟨caller, caller, 0⟩
    pure (e, sorted_disks.ctor e.sorted e.count)
  else none

/-! ## Auxiliary rows and scans used in the proofs -/

/-- Scan that carries the disk `x` over the disks `t` that follow it: when the carried disk
is `a` and the next one is `b` the two are exchanged (one swap), otherwise the carried disk
is put down and the next one is picked up. Returns the scanned row and the swaps made. -/
def carry_scan (a b : disk_color) : disk_color → List disk_color → List disk_color × Nat
  | x, [] => ([x], 0)
  | x, y :: ys =>
    if x = a ∧ y = b then (y :: (carry_scan a b x ys).1, (carry_scan a b x ys).2 + 1)
    else (x :: (carry_scan a b y ys).1, (carry_scan a b y ys).2)

/-- Row `a b a b …` made of `m` pairs. -/
def alt_row (a b : disk_color) : Nat → List disk_color
  | 0 => []
  | m + 1 => a :: b :: alt_row a b m

/-- Row `b … b (a b) … (a b) a … a`: `k + 1` disks `b`, `m` pairs `a b`, `k + 1` disks `a`. -/
def mid_row (a b : disk_color) (k m : Nat) : List disk_color :=
  List.replicate (k + 1) b ++ alt_row a b m ++ List.replicate (k + 1) a

/-- Whether every two neighbouring disks of a list differ in colour. -/
def pairs_differ : List disk_color → Bool
  | x :: y :: ys => decide (x ≠ y) && pairs_differ (y :: ys)
  | _ => true

/-- Sorted row: `n` light disks followed by `n` dark disks. -/
def sorted_row (n : Nat) : List disk_color :=
  List.replicate n DISK_LIGHT ++ List.replicate n DISK_DARK

/-- Rows that can be reached from the freshly constructed row `disk_state(n)` by a finite
sequence of `swap` calls whose index assertions hold. -/
inductive reachable (n : Nat) : disk_state → Prop
  | start (r : disk_state) : disk_state.ctor n = some r → reachable n r
  | step (r r' : disk_state) (i : Nat) : reachable n r → r.swap i = some r' → reachable n r'

theorem colors_index_at (pre : List disk_color) (x : disk_color) (t : List disk_color) :
    (pre ++ x :: t)[pre.length]? = some x := by
  induction pre with
  | nil => simp
  | cons p ps ih => simpa using ih

theorem colors_index_at_succ (pre : List disk_color) (x y : disk_color)
    (t : List disk_color) : (pre ++ x :: y :: t)[pre.length + 1]? = some y := by
  induction pre with
  | nil => simp
  | cons p ps ih => simpa using ih

theorem get_at (pre : List disk_color) (x : disk_color) (t : List disk_color) :
    disk_state.get ⟨pre ++ x :: t⟩ pre.length = some x := by
  have h := colors_index_at pre x t
  simp only [disk_state.get, disk_state.is_index, disk_state.total_count, h]
  simp

theorem get_at_succ (pre : List disk_color) (x y : disk_color) (t : List disk_color) :
    disk_state.get ⟨pre ++ x :: y :: t⟩ (pre.length + 1) = some y := by
  have h := colors_index_at_succ pre x y t
  simp only [disk_state.get, disk_state.is_index, disk_state.total_count, h]
  simp

theorem swap_at (pre : List disk_color) (x y : disk_color) (t : List disk_color) :
    disk_state.swap ⟨pre ++ x :: y :: t⟩ pre.length = some ⟨pre ++ y :: x :: t⟩ := by
  have h0 := colors_index_at pre x (y :: t)
  have h1 := colors_index_at_succ pre x y t
  simp only [disk_state.swap, disk_state.is_index, disk_state.total_count, h0, h1]
  simp

theorem ltr_body_at (pre : List disk_color) (x y : disk_color) (ys : List disk_color) (c : Nat) :
    ltr_body (⟨pre ++ x :: y :: ys⟩, c) pre.length =
      some (if x = DISK_DARK ∧ y = DISK_LIGHT then (⟨pre ++ y :: x :: ys⟩, c + 1)
        else (⟨pre ++ x :: y :: ys⟩, c)) := by
  simp only [ltr_body, get_at, get_at_succ, swap_at, Option.bind_eq_bind, Option.some_bind,
    Option.pure_def]
  by_cases hx : x = DISK_DARK <;> by_cases hy : y = DISK_LIGHT <;> simp [hx, hy]

theorem rtl_body_at (pre : List disk_color) (x y : disk_color) (ys : List disk_color) (c : Nat) :
    rtl_body (⟨pre ++ x :: y :: ys⟩, c) (pre.length + 1) =
      some (if y = DISK_LIGHT ∧ x = DISK_DARK then (⟨pre ++ y :: x :: ys⟩, c + 1)
        else (⟨pre ++ x :: y :: ys⟩, c)) := by
  simp only [rtl_body, get_at, get_at_succ, swap_at, Option.bind_eq_bind, Option.some_bind,
    Option.pure_def, Nat.add_sub_cancel]
  by_cases hx : x = DISK_DARK <;> by_cases hy : y = DISK_LIGHT <;> simp [hx, hy]

theorem ltr_loop_eq_carry_scan (t : List disk_color) :
    ∀ (pre : List disk_color) (x : disk_color) (c : Nat),
      ltr_loop t.length pre.length (⟨pre ++ x :: t⟩, c) =
        some (⟨pre ++ (carry_scan DISK_DARK DISK_LIGHT x t).1⟩,
          c + (carry_scan DISK_DARK DISK_LIGHT x t).2) := by
  induction t with
  | nil => intro pre x c; simp [ltr_loop, carry_scan]
  | cons y ys ih =>
    intro pre x c
    simp only [List.length_cons, ltr_loop, ltr_body_at, Option.bind_eq_bind, Option.some_bind]
    by_cases h : x = DISK_DARK ∧ y = DISK_LIGHT
    · have e : pre ++ y :: x :: ys = (pre ++ [y]) ++ x :: ys := by simp
      have l : pre.length + 1 = (pre ++ [y]).length := by simp
      rw [if_pos h, e, l, ih]
      simp [carry_scan, h]
      omega
    · have e : pre ++ x :: y :: ys = (pre ++ [x]) ++ y :: ys := by simp
      have l : pre.length + 1 = (pre ++ [x]).length := by simp
      rw [if_neg h, e, l, ih]
      simp [carry_scan, h]

theorem rtl_loop_eq_carry_scan (u : List disk_color) :
    ∀ (x : disk_color) (post : List disk_color) (c : Nat),
      rtl_loop u.length (⟨u.reverse ++ x :: post⟩, c) =
        some (⟨(carry_scan DISK_LIGHT DISK_DARK x u).1.reverse ++ post⟩,
          c + (carry_scan DISK_LIGHT DISK_DARK x u).2) := by
  induction u with
  | nil => intro x post c; simp [rtl_loop, carry_scan]
  | cons y us ih =>
    intro x post c
    have e : (y :: us).reverse ++ x :: post = us.reverse ++ y :: x :: post := by simp
    have l : us.length + 1 = us.reverse.length + 1 := by simp
    simp only [List.length_cons, rtl_loop, Option.bind_eq_bind]
    rw [e]
    nth_rewrite 1 [l]
    rw [rtl_body_at, Option.some_bind]
    by_cases h : x = DISK_LIGHT ∧ y = DISK_DARK
    · rw [if_pos h, ih]
      simp [carry_scan, h]
      omega
    · rw [if_neg h, ih]
      simp [carry_scan, h]

/-! ## Rows met by the sorts -/

theorem alt_row_length (a b : disk_color) (m : Nat) : (alt_row a b m).length = 2 * m := by
  induction m with
  | zero => rfl
  | succ m ih => simp [alt_row, ih]; omega

theorem alt_row_succ_end (a b : disk_color) (m : Nat) :
    alt_row a b (m + 1) = alt_row a b m ++ [a, b] := by
  induction m with
  | zero => rfl
  | succ m ih =>
    calc alt_row a b (m + 1 + 1) = a :: b :: alt_row a b (m + 1) := rfl
      _ = a :: b :: (alt_row a b m ++ [a, b]) := by rw [ih]
      _ = alt_row a b (m + 1) ++ [a, b] := rfl

theorem alt_row_reverse (a b : disk_color) (m : Nat) :
    (alt_row a b m).reverse = alt_row b a m := by
  induction m with
  | zero => rfl
  | succ m ih =>
    rw [alt_row_succ_end, List.reverse_append, ih]
    rfl

theorem alt_row_count (a b : disk_color) (hab : a ≠ b) (m : Nat) :
    (alt_row a b m).count b = m := by
  induction m with
  | zero => rfl
  | succ m ih =>
    simp only [alt_row, List.count_cons, ih]
    simp [hab]

theorem alt_row_shift (a b : disk_color) (m : Nat) :
    a :: alt_row b a m = alt_row a b m ++ [a] := by
  induction m with
  | zero => rfl
  | succ m ih =>
    calc a :: alt_row b a (m + 1) = a :: b :: (a :: alt_row b a m) := rfl
      _ = a :: b :: (alt_row a b m ++ [a]) := by rw [ih]
      _ = alt_row a b (m + 1) ++ [a] := rfl

theorem mid_row_reverse (a b : disk_color) (k m : Nat) :
    (mid_row a b k m).reverse = mid_row b a k m := by
  simp [mid_row, alt_row_reverse, List.append_assoc]

theorem mid_row_length (a b : disk_color) (k m : Nat) :
    (mid_row a b k m).length = 2 * (k + 1 + m) := by
  simp [mid_row, alt_row_length]
  omega

theorem color_dichotomy (a b : disk_color) (hab : a ≠ b) (y : disk_color) : y = a ∨ y = b := by
  cases a <;> cases b <;> cases y <;> simp_all

theorem carry_scan_same (a b : disk_color) (hab : a ≠ b) (t : List disk_color) :
    carry_scan a b a t = (t ++ [a], t.count b) := by
  induction t with
  | nil => rfl
  | cons y ys ih =>
    rcases color_dichotomy a b hab y with h | h
    · subst h
      have hne : ¬ (y = y ∧ y = b) := fun h => hab h.2
      simp [carry_scan, hne, ih, hab]
      rw [List.count_cons_of_ne (Ne.symm hab)]
    · subst h
      simp [carry_scan, ih]

theorem carry_scan_skip (a b : disk_color) (hab : a ≠ b) (k : Nat) (x : disk_color)
    (t : List disk_color) :
    carry_scan a b b (List.replicate k b ++ x :: t) =
      (List.replicate (k + 1) b ++ (carry_scan a b x t).1, (carry_scan a b x t).2) := by
  induction k with
  | zero =>
    have hne : ¬ (b = a ∧ x = b) := fun h => hab h.1.symm
    simp [carry_scan, hne]
  | succ k ih =>
    have hne : ¬ (b = a ∧ b = b) := fun h => hab h.1.symm
    have e : List.replicate (k + 1) b ++ x :: t = b :: (List.replicate k b ++ x :: t) := rfl
    rw [e, carry_scan, if_neg hne, ih]
    rfl

theorem carry_scan_mid_succ (a b : disk_color) (hab : a ≠ b) (k m : Nat) :
    carry_scan a b b (List.replicate k b ++ alt_row a b (m + 1) ++ List.replicate (k + 1) a) =
      (mid_row a b (k + 1) m, m + 1) := by
  have e : List.replicate k b ++ alt_row a b (m + 1) ++ List.replicate (k + 1) a =
      List.replicate k b ++ a :: (b :: alt_row a b m ++ List.replicate (k + 1) a) := by
    simp [alt_row]
  rw [e, carry_scan_skip a b hab, carry_scan_same a b hab]
  have hc : List.count b (List.replicate (k + 1) a) = 0 := by
    rw [List.count_replicate]; simp [hab]
  have hr : ∀ (c : disk_color) (n : Nat) (l : List disk_color),
      List.replicate (n + 1) c ++ c :: l = List.replicate (n + 1 + 1) c ++ l := by
    intro c n l
    rw [List.replicate_succ' (n + 1), List.append_assoc]; rfl
  have hl : List.replicate (k + 1) a ++ [a] = List.replicate (k + 1 + 1) a := by
    rw [List.replicate_succ' (k + 1)]
  refine Prod.ext ?_ ?_
  · show List.replicate (k + 1) b ++ (b :: alt_row a b m ++ List.replicate (k + 1) a ++ [a]) = _
    rw [List.append_assoc, hl, List.cons_append, hr, mid_row, List.append_assoc]
  · show (b :: alt_row a b m ++ List.replicate (k + 1) a).count b = m + 1
    rw [List.cons_append, List.count_cons_self, List.count_append, alt_row_count a b hab, hc]

theorem carry_scan_mid_zero (a b : disk_color) (hab : a ≠ b) (k : Nat) :
    carry_scan a b b (List.replicate k b ++ List.replicate (k + 1) a) =
      (mid_row a b k 0, 0) := by
  have e : List.replicate k b ++ List.replicate (k + 1) a =
      List.replicate k b ++ a :: List.replicate k a := rfl
  rw [e, carry_scan_skip a b hab, carry_scan_same a b hab]
  have hc : List.count b (List.replicate k a) = 0 := by
    rw [List.count_replicate]; simp [hab]
  refine Prod.ext ?_ hc
  show List.replicate (k + 1) b ++ (List.replicate k a ++ [a]) = _
  rw [← List.replicate_succ' k, mid_row]
  simp [alt_row]

/-! ## Passes over the rows `mid_row` -/

theorem ltr_pass_cons (x : disk_color) (t : List disk_color) (c : Nat) :
    ltr_pass (⟨x :: t⟩, c) =
      some (⟨(carry_scan DISK_DARK DISK_LIGHT x t).1⟩,
        c + (carry_scan DISK_DARK DISK_LIGHT x t).2) := by
  have h := ltr_loop_eq_carry_scan t [] x c
  simpa [ltr_pass, disk_state.total_count] using h

theorem rtl_pass_snoc (u : List disk_color) (x : disk_color) (c : Nat) :
    rtl_pass (⟨u.reverse ++ [x]⟩, c) =
      some (⟨(carry_scan DISK_LIGHT DISK_DARK x u).1.reverse⟩,
        c + (carry_scan DISK_LIGHT DISK_DARK x u).2) := by
  have h := rtl_loop_eq_carry_scan u x [] c
  simpa [rtl_pass, disk_state.total_count] using h

theorem mid_row_eq_cons (a b : disk_color) (k m : Nat) :
    mid_row a b k m = b :: (List.replicate k b ++ alt_row a b m ++ List.replicate (k + 1) a) :=
  rfl

theorem mid_row_eq_snoc (a b : disk_color) (k m : Nat) :
    mid_row a b k m =
      (List.replicate k a ++ alt_row b a m ++ List.replicate (k + 1) b).reverse ++ [a] := by
  simp [mid_row, alt_row_reverse, List.replicate_succ' k a, List.append_assoc]

theorem dark_ne_light : DISK_DARK ≠ DISK_LIGHT := by decide

theorem light_ne_dark : DISK_LIGHT ≠ DISK_DARK := by decide

theorem ltr_pass_mid_succ (k m c : Nat) :
    ltr_pass (⟨mid_row DISK_DARK DISK_LIGHT k (m + 1)⟩, c) =
      some (⟨mid_row DISK_DARK DISK_LIGHT (k + 1) m⟩, c + (m + 1)) := by
  rw [mid_row_eq_cons, ltr_pass_cons, carry_scan_mid_succ _ _ dark_ne_light]

theorem ltr_pass_mid_zero (k c : Nat) :
    ltr_pass (⟨mid_row DISK_DARK DISK_LIGHT k 0⟩, c) =
      some (⟨mid_row DISK_DARK DISK_LIGHT k 0⟩, c) := by
  have e : mid_row DISK_DARK DISK_LIGHT k 0 =
      DISK_LIGHT :: (List.replicate k DISK_LIGHT ++ List.replicate (k + 1) DISK_DARK) := by
    simp [mid_row, alt_row, List.replicate_succ]
  rw [e, ltr_pass_cons, carry_scan_mid_zero _ _ dark_ne_light, ← e]
  rfl

theorem rtl_pass_mid_succ (k m c : Nat) :
    rtl_pass (⟨mid_row DISK_DARK DISK_LIGHT k (m + 1)⟩, c) =
      some (⟨mid_row DISK_DARK DISK_LIGHT (k + 1) m⟩, c + (m + 1)) := by
  rw [mid_row_eq_snoc, rtl_pass_snoc, carry_scan_mid_succ _ _ light_ne_dark, mid_row_reverse]

theorem rtl_pass_mid_zero (k c : Nat) :
    rtl_pass (⟨mid_row DISK_DARK DISK_LIGHT k 0⟩, c) =
      some (⟨mid_row DISK_DARK DISK_LIGHT k 0⟩, c) := by
  have e : mid_row DISK_DARK DISK_LIGHT k 0 =
      (List.replicate k DISK_DARK ++ List.replicate (k + 1) DISK_LIGHT).reverse ++ [DISK_DARK] := by
    simp [mid_row, alt_row, List.replicate_succ' k DISK_DARK]
  have e2 : (mid_row DISK_LIGHT DISK_DARK k 0).reverse = mid_row DISK_DARK DISK_LIGHT k 0 :=
    mid_row_reverse _ _ _ _
  rw [e, rtl_pass_snoc, carry_scan_mid_zero _ _ light_ne_dark, e2, ← e]
  rfl

/-- Triangular number `m (m + 1) / 2`, the swaps needed from `mid_row _ _ k m`. -/
theorem triangle_succ (m : Nat) : (m + 1) * (m + 2) / 2 = m * (m + 1) / 2 + (m + 1) := by
  have h : (m + 1) * (m + 2) = m * (m + 1) + (m + 1) * 2 := by ring
  rw [h, Nat.add_mul_div_right _ _ (by decide : 0 < 2)]

theorem ltr_outer_mid (K : Nat) :
    ∀ (m k c : Nat), m ≤ K →
      ltr_outer K (⟨mid_row DISK_DARK DISK_LIGHT k m⟩, c) =
        some (⟨mid_row DISK_DARK DISK_LIGHT (k + m) 0⟩, c + m * (m + 1) / 2) := by
  induction K with
  | zero =>
    intro m k c h
    obtain rfl : m = 0 := by omega
    simp [ltr_outer]
  | succ K ih =>
    intro m k c h
    cases m with
    | zero =>
      rw [ltr_outer, ltr_pass_mid_zero, Option.bind_eq_bind, Option.some_bind, ih 0 k c (by omega)]
    | succ m =>
      rw [ltr_outer, ltr_pass_mid_succ, Option.bind_eq_bind, Option.some_bind,
        ih m (k + 1) _ (by omega), triangle_succ]
      have e : k + 1 + m = k + (m + 1) := by omega
      have e2 : c + (m + 1) + m * (m + 1) / 2 = c + (m * (m + 1) / 2 + (m + 1)) := by omega
      rw [e, e2]

theorem lawnmower_outer_mid (K : Nat) :
    ∀ (m k c : Nat), m ≤ 2 * K →
      lawnmower_outer K (⟨mid_row DISK_DARK DISK_LIGHT k m⟩, c) =
        some (⟨mid_row DISK_DARK DISK_LIGHT (k + m) 0⟩, c + m * (m + 1) / 2) := by
  induction K with
  | zero =>
    intro m k c h
    obtain rfl : m = 0 := by omega
    simp [lawnmower_outer]
  | succ K ih =>
    intro m k c h
    match m with
    | 0 =>
      simp only [lawnmower_outer, ltr_pass_mid_zero, rtl_pass_mid_zero, Option.bind_eq_bind,
        Option.some_bind]
      exact ih 0 k c (by omega)
    | 1 =>
      simp only [lawnmower_outer, ltr_pass_mid_succ, rtl_pass_mid_zero, Option.bind_eq_bind,
        Option.some_bind]
      rw [ih 0 (k + 1) _ (by omega)]
    | m + 2 =>
      simp only [lawnmower_outer, ltr_pass_mid_succ, rtl_pass_mid_succ, Option.bind_eq_bind,
        Option.some_bind]
      rw [ih m (k + 1 + 1) _ (by omega)]
      have t1 : (m + 2) * (m + 2 + 1) / 2 = (m + 1) * (m + 2) / 2 + (m + 2) :=
        triangle_succ (m + 1)
      have t2 := triangle_succ m
      have e : k + 1 + 1 + m = k + (m + 2) := by omega
      have e2 : c + (m + 1 + 1) + (m + 1) + m * (m + 1) / 2 =
          c + (m + 2) * (m + 2 + 1) / 2 := by omega
      rw [e, e2]

/-! ## The constructor and the two predicates -/

theorem colors_set_at_succ (pre : List disk_color) (x y z : disk_color) (t : List disk_color) :
    (pre ++ x :: y :: t).set (pre.length + 1) z = pre ++ x :: z :: t := by
  induction pre with
  | nil => simp
  | cons p ps ih => simp [ih]

theorem ctor_loop_alt (m : Nat) :
    ∀ (j fuel : Nat), m ≤ fuel →
      disk_state.ctor_loop fuel (2 * j + 1)
          (alt_row DISK_LIGHT DISK_DARK j ++ List.replicate (2 * m) DISK_LIGHT) =
        alt_row DISK_LIGHT DISK_DARK (j + m) := by
  induction m with
  | zero =>
    intro j fuel _
    cases fuel with
    | zero => simp [disk_state.ctor_loop]
    | succ f => simp [disk_state.ctor_loop, alt_row_length]
  | succ m ih =>
    intro j fuel h
    obtain ⟨f, rfl⟩ : ∃ f, fuel = f + 1 := ⟨fuel - 1, by omega⟩
    have e : alt_row DISK_LIGHT DISK_DARK j ++ List.replicate (2 * (m + 1)) DISK_LIGHT =
        alt_row DISK_LIGHT DISK_DARK j ++
          DISK_LIGHT :: DISK_LIGHT :: List.replicate (2 * m) DISK_LIGHT := by
      have : 2 * (m + 1) = 2 * m + 1 + 1 := by omega
      rw [this]; rfl
    have hl : 2 * j + 1 < (alt_row DISK_LIGHT DISK_DARK j ++
        DISK_LIGHT :: DISK_LIGHT :: List.replicate (2 * m) DISK_LIGHT).length := by
      simp [alt_row_length]
    have hi : 2 * j + 1 = (alt_row DISK_LIGHT DISK_DARK j).length + 1 := by
      rw [alt_row_length]
    rw [e, disk_state.ctor_loop, if_pos hl]
    nth_rewrite 2 [hi]
    rw [colors_set_at_succ]
    have e2 : alt_row DISK_LIGHT DISK_DARK j ++
        DISK_LIGHT :: DISK_DARK :: List.replicate (2 * m) DISK_LIGHT =
        alt_row DISK_LIGHT DISK_DARK (j + 1) ++ List.replicate (2 * m) DISK_LIGHT := by
      rw [alt_row_succ_end, List.append_assoc]; rfl
    have e3 : 2 * j + 1 + 2 = 2 * (j + 1) + 1 := by omega
    have e4 : j + 1 + m = j + (m + 1) := by omega
    rw [e2, e3, ih (j + 1) f (by omega), e4]

theorem ctor_size (n : Nat) : n * 2 % 2 ^ 64 = 2 * (n % 2 ^ 63) := by
  omega

theorem ctor_eq (n : Nat) (h : 1 ≤ n % 2 ^ 63) :
    disk_state.ctor n = some ⟨alt_row DISK_LIGHT DISK_DARK (n % 2 ^ 63)⟩ := by
  have hd : 0 < 2 * (n % 2 ^ 63) / 2 := by omega
  have hloop := ctor_loop_alt (n % 2 ^ 63) 0 (2 * (n % 2 ^ 63)) (by omega)
  simp only [alt_row, List.nil_append, Nat.mul_zero, Nat.zero_add] at hloop
  simp only [disk_state.ctor, disk_state.dark_count, disk_state.total_count, ctor_size,
    List.length_replicate, hd, if_true, hloop]

theorem ctor_eq_small (n : Nat) (h1 : 1 ≤ n) (h2 : n < 2 ^ 63) :
    disk_state.ctor n = some ⟨alt_row DISK_LIGHT DISK_DARK n⟩ := by
  have e : n % 2 ^ 63 = n := Nat.mod_eq_of_lt h2
  have h := ctor_eq n (by omega)
  rw [e] at h
  exact h

theorem ctor_none (n : Nat) (h : n % 2 ^ 63 = 0) : disk_state.ctor n = none := by
  have hd : ¬ 0 < 2 * (n % 2 ^ 63) / 2 := by omega
  simp only [disk_state.ctor, disk_state.dark_count, disk_state.total_count, ctor_size,
    List.length_replicate, hd, if_false]

theorem ctor_none_iff (n : Nat) : disk_state.ctor n = none ↔ n % 2 ^ 63 = 0 := by
  constructor
  · intro h
    by_cases hn : 1 ≤ n % 2 ^ 63
    · rw [ctor_eq n hn] at h
      exact absurd h (by simp)
    · omega
  · exact ctor_none n

theorem ctor_some (n : Nat) (r : disk_state) (h : disk_state.ctor n = some r) :
    1 ≤ n % 2 ^ 63 ∧ r = ⟨alt_row DISK_LIGHT DISK_DARK (n % 2 ^ 63)⟩ := by
  by_cases hn : 1 ≤ n % 2 ^ 63
  · rw [ctor_eq n hn] at h
    injection h with h
    exact ⟨hn, h.symm⟩
  · rw [ctor_none n (by omega)] at h
    exact absurd h (by simp)

theorem is_alternating_loop_eq (t : List disk_color) :
    ∀ (pre : List disk_color),
      disk_state.is_alternating_loop ⟨pre ++ t⟩ (t.length - 1) pre.length =
        some (pairs_differ t) := by
  induction t with
  | nil => intro pre; simp [disk_state.is_alternating_loop, pairs_differ]
  | cons x t ih =>
    intro pre
    cases t with
    | nil => simp [disk_state.is_alternating_loop, pairs_differ]
    | cons y ys =>
      have h0 := colors_index_at pre x (y :: ys)
      have h1 := colors_index_at_succ pre x y ys
      have e : pre ++ x :: y :: ys = (pre ++ [x]) ++ y :: ys := by simp
      have l : pre.length + 1 = (pre ++ [x]).length := by simp
      have ih2 := ih (pre ++ [x])
      rw [← e, ← l] at ih2
      simp only [List.length_cons, Nat.add_sub_cancel] at ih2 ⊢
      simp only [disk_state.is_alternating_loop, disk_state.colors_at, h0, h1,
        Option.bind_eq_bind, Option.some_bind, ih2, pairs_differ]
      cases x <;> cases y <;> simp

theorem is_alternating_cons (x : disk_color) (t : List disk_color) :
    disk_state.is_alternating ⟨x :: t⟩ =
      some (decide (x = DISK_LIGHT) && pairs_differ t) := by
  have h := is_alternating_loop_eq t [x]
  simp only [List.singleton_append, List.length_singleton] at h
  simp only [disk_state.is_alternating, disk_state.colors_at, List.getElem?_cons_zero,
    Option.bind_eq_bind, Option.some_bind, List.length_cons, Nat.add_sub_cancel, h]
  cases x <;> simp

theorem pairs_differ_alt (a b : disk_color) (hab : a ≠ b) (m : Nat) :
    pairs_differ (a :: alt_row b a m) = true := by
  induction m with
  | zero => rfl
  | succ m ih =>
    have hba : b ≠ a := Ne.symm hab
    simp only [alt_row, pairs_differ, ih]
    simp [hab, hba]

theorem is_alternating_alt (n : Nat) (h : 1 ≤ n) :
    disk_state.is_alternating ⟨alt_row DISK_LIGHT DISK_DARK n⟩ = some true := by
  obtain ⟨m, rfl⟩ : ∃ m, n = m + 1 := ⟨n - 1, by omega⟩
  have e : alt_row DISK_LIGHT DISK_DARK (m + 1) =
      DISK_LIGHT :: (DISK_DARK :: alt_row DISK_LIGHT DISK_DARK m) := rfl
  rw [e, is_alternating_cons, pairs_differ_alt _ _ dark_ne_light]
  rfl

theorem is_sorted_loop_eq (k : Nat) :
    ∀ (pre t : List disk_color), k ≤ t.length →
      disk_state.is_sorted_loop ⟨pre ++ t⟩ k pre.length =
        some ((t.take k).all (fun c => decide (c = DISK_LIGHT))) := by
  induction k with
  | zero => intro pre t _; simp [disk_state.is_sorted_loop]
  | succ k ih =>
    intro pre t h
    cases t with
    | nil => simp at h
    | cons x xs =>
      have h0 := colors_index_at pre x xs
      have e : pre ++ x :: xs = (pre ++ [x]) ++ xs := by simp
      have l : pre.length + 1 = (pre ++ [x]).length := by simp
      have ih2 := ih (pre ++ [x]) xs (by simpa using h)
      rw [← e, ← l] at ih2
      simp only [disk_state.is_sorted_loop, disk_state.colors_at, h0, Option.bind_eq_bind,
        Option.some_bind, ih2, List.take_succ_cons, List.all_cons]
      cases x <;> simp

theorem is_sorted_eq (s : disk_state) :
    s.is_sorted =
      some ((s._colors.take (s._colors.length / 2)).all (fun c => decide (c = DISK_LIGHT))) := by
  have h := is_sorted_loop_eq (s._colors.length / 2) [] s._colors (by omega)
  simpa [disk_state.is_sorted] using h

theorem is_sorted_sorted_row (n : Nat) : disk_state.is_sorted ⟨sorted_row n⟩ = some true := by
  rw [is_sorted_eq]
  have hl : (sorted_row n).length / 2 = n := by simp [sorted_row]; omega
  simp only [hl]
  simp [sorted_row, List.take_append_eq_append_take]

/-! ## The two sorts on the freshly constructed row -/

theorem alt_row_eq_mid (m : Nat) :
    alt_row DISK_LIGHT DISK_DARK (m + 1) = mid_row DISK_DARK DISK_LIGHT 0 m := by
  have h := alt_row_shift DISK_LIGHT DISK_DARK m
  calc alt_row DISK_LIGHT DISK_DARK (m + 1)
      = alt_row DISK_LIGHT DISK_DARK m ++ [DISK_LIGHT, DISK_DARK] := alt_row_succ_end _ _ m
    _ = (alt_row DISK_LIGHT DISK_DARK m ++ [DISK_LIGHT]) ++ [DISK_DARK] := by simp
    _ = (DISK_LIGHT :: alt_row DISK_DARK DISK_LIGHT m) ++ [DISK_DARK] := by rw [h]
    _ = mid_row DISK_DARK DISK_LIGHT 0 m := rfl

theorem mid_row_zero (k : Nat) : mid_row DISK_DARK DISK_LIGHT k 0 = sorted_row (k + 1) := by
  simp [mid_row, sorted_row, alt_row]

theorem dark_count_alt (n : Nat) :
    disk_state.dark_count ⟨alt_row DISK_LIGHT DISK_DARK n⟩ = n := by
  simp [disk_state.dark_count, disk_state.total_count, alt_row_length]

theorem sort_left_to_right_alt (n : Nat) (h : 1 ≤ n) :
    sort_left_to_right ⟨alt_row DISK_LIGHT DISK_DARK n⟩ =
      some (sorted_disks.ctor ⟨sorted_row n⟩ (n * (n - 1) / 2)) := by
  have ha := is_alternating_alt n h
  obtain ⟨m, rfl⟩ : ∃ m, n = m + 1 := ⟨n - 1, by omega⟩
  have ho := ltr_outer_mid (m + 1) m 0 0 (by omega)
  rw [← alt_row_eq_mid, Nat.zero_add, Nat.zero_add, mid_row_zero] at ho
  simp only [sort_left_to_right, ha, if_true, dark_count_alt, ho, Option.bind_eq_bind,
    Option.some_bind, Option.pure_def, Nat.add_sub_cancel]
  rw [Nat.mul_comm]

theorem sort_lawnmower_alt (n : Nat) (h : 1 ≤ n) :
    sort_lawnmower ⟨alt_row DISK_LIGHT DISK_DARK n⟩ =
      some (sorted_disks.ctor ⟨sorted_row n⟩ (n * (n - 1) / 2)) := by
  have ha := is_alternating_alt n h
  obtain ⟨m, rfl⟩ : ∃ m, n = m + 1 := ⟨n - 1, by omega⟩
  have ho := lawnmower_outer_mid ((m + 1) / 2) m 0 0 (by omega)
  rw [← alt_row_eq_mid, Nat.zero_add, Nat.zero_add, mid_row_zero] at ho
  simp only [sort_lawnmower, ha, if_true, dark_count_alt, ho, Option.bind_eq_bind,
    Option.some_bind, Option.pure_def, Nat.add_sub_cancel]
  rw [Nat.mul_comm]

theorem alt_row_index (a b : disk_color) (m : Nat) :
    ∀ i, i < 2 * m → (alt_row a b m)[i]? = some (if i % 2 = 0 then a else b) := by
  induction m with
  | zero => intro i h; omega
  | succ m ih =>
    intro i h
    match i with
    | 0 => simp [alt_row]
    | 1 => simp [alt_row]
    | i + 2 =>
      have := ih i (by omega)
      simpa [alt_row] using this

theorem sorted_row_index_low (n i : Nat) (h : i < n) :
    (sorted_row n)[i]? = some DISK_LIGHT := by
  simp [sorted_row, List.getElem?_append_left, h]

theorem sorted_row_index_high (n i : Nat) (h1 : n ≤ i) (h2 : i < 2 * n) :
    (sorted_row n)[i]? = some DISK_DARK := by
  have hl : (List.replicate n DISK_LIGHT).length ≤ i := by simpa using h1
  rw [sorted_row, List.getElem?_append_right hl, List.length_replicate,
    List.getElem?_replicate, if_pos (by omega)]

theorem sorted_row_length (n : Nat) : (sorted_row n).length = 2 * n := by
  simp [sorted_row]; omega

theorem get_eq_index (s : disk_state) (i : Nat) : s.get i = s._colors[i]? := by
  by_cases h : i < s._colors.length
  · simp [disk_state.get, disk_state.is_index, disk_state.total_count, h]
  · have hn : s._colors[i]? = none := List.getElem?_eq_none (by omega)
    simp [disk_state.get, disk_state.is_index, disk_state.total_count, h, hn]

theorem triangle_small (n : Nat) (h : n ≤ 92682) : n * (n - 1) / 2 < 2 ^ 32 := by
  have h1 : n * (n - 1) ≤ 92682 * 92681 := Nat.mul_le_mul h (by omega)
  omega

/-! ## Rows reachable by swaps -/

theorem split_at_pair (l : List disk_color) :
    ∀ i, i + 1 < l.length → ∃ pre x y t, l = pre ++ x :: y :: t ∧ pre.length = i := by
  induction l with
  | nil => intro i h; simp at h
  | cons a l ih =>
    intro i h
    cases i with
    | zero =>
      cases l with
      | nil => simp at h
      | cons y t => exact ⟨[], a, y, t, rfl, rfl⟩
    | succ i =>
      obtain ⟨pre, x, y, t, e, hl⟩ := ih i (by simpa using h)
      exact ⟨a :: pre, x, y, t, by rw [e]; rfl, by simp [hl]⟩

theorem swap_none (s : disk_state) (i : Nat) (h : ¬ i + 1 < s.total_count) :
    s.swap i = none := by
  simp only [disk_state.swap, disk_state.is_index]
  by_cases h0 : i < s.total_count
  · simp [h0, h]
  · simp [h0]

theorem swap_some (s s' : disk_state) (i : Nat) (h : s.swap i = some s') :
    ∃ pre x y t, s._colors = pre ++ x :: y :: t ∧ pre.length = i ∧
      s'._colors = pre ++ y :: x :: t := by
  by_cases hi : i + 1 < s.total_count
  · obtain ⟨pre, x, y, t, e, hl⟩ := split_at_pair s._colors i hi
    refine ⟨pre, x, y, t, e, hl, ?_⟩
    have hs : s = ⟨pre ++ x :: y :: t⟩ := by cases s; simp_all
    rw [hs, ← hl, swap_at] at h
    injection h with h
    rw [← h]
  · rw [swap_none s i hi] at h
    exact absurd h (by simp)

theorem swap_total_count (s s' : disk_state) (i : Nat) (h : s.swap i = some s') :
    s'.total_count = s.total_count := by
  obtain ⟨pre, x, y, t, e, _, e'⟩ := swap_some s s' i h
  simp [disk_state.total_count, e, e']

theorem swap_count (s s' : disk_state) (i : Nat) (h : s.swap i = some s') (c : disk_color) :
    s'._colors.count c = s._colors.count c := by
  obtain ⟨pre, x, y, t, e, _, e'⟩ := swap_some s s' i h
  rw [e, e']
  simp only [List.count_append, List.count_cons]
  omega

theorem alt_row_count_fst (a b : disk_color) (hab : a ≠ b) (m : Nat) :
    (alt_row a b m).count a = m := by
  induction m with
  | zero => rfl
  | succ m ih =>
    simp only [alt_row, List.count_cons, ih]
    simp [Ne.symm hab]

theorem reachable_counts (n : Nat) (r : disk_state) (hr : reachable n r) :
    1 ≤ n % 2 ^ 63 ∧ r.total_count = 2 * (n % 2 ^ 63) ∧
      r._colors.count DISK_LIGHT = n % 2 ^ 63 ∧ r._colors.count DISK_DARK = n % 2 ^ 63 := by
  induction hr with
  | start r h =>
    obtain ⟨hk, rfl⟩ := ctor_some n r h
    exact ⟨hk, alt_row_length _ _ _, alt_row_count_fst _ _ light_ne_dark _,
      alt_row_count _ _ light_ne_dark _⟩
  | step r r' i _ hs ih =>
    rw [swap_total_count r r' i hs, swap_count r r' i hs, swap_count r r' i hs]
    exact ih

theorem count_light_add_count_dark (l : List disk_color) :
    l.count DISK_LIGHT + l.count DISK_DARK = l.length := by
  induction l with
  | nil => rfl
  | cons x xs ih =>
    cases x <;> simp [List.count_cons] <;> omega

theorem colors_index_other (pre : List disk_color) (x y : disk_color) (t : List disk_color)
    (j : Nat) (h0 : j ≠ pre.length) (h1 : j ≠ pre.length + 1) :
    (pre ++ y :: x :: t)[j]? = (pre ++ x :: y :: t)[j]? := by
  by_cases hj : j < pre.length
  · rw [List.getElem?_append_left hj, List.getElem?_append_left hj]
  · obtain ⟨k, rfl⟩ : ∃ k, j = pre.length + (k + 2) := ⟨j - pre.length - 2, by omega⟩
    rw [List.getElem?_append_right (by omega), List.getElem?_append_right (by omega)]
    have e : pre.length + (k + 2) - pre.length = k + 1 + 1 := by omega
    rw [e]
    rfl

theorem swap_none_iff (s : disk_state) (i : Nat) :
    s.swap i = none ↔ s.total_count ≤ i + 1 := by
  constructor
  · intro h
    by_cases hi : i + 1 < s.total_count
    · obtain ⟨pre, x, y, t, e, hl⟩ := split_at_pair s._colors i hi
      have hs : s = ⟨pre ++ x :: y :: t⟩ := by cases s; simp_all
      rw [hs, ← hl, swap_at] at h
      exact absurd h (by simp)
    · omega
  · intro h
    exact swap_none s i (by omega)

theorem swap_run_eq (s : disk_state) (i : Nat) :
    s.swap_run i = match s.swap i with
      | some s' => (s', true)
      | none => (s, false) := by
  by_cases hi : i + 1 < s.total_count
  · obtain ⟨pre, x, y, t, e, hl⟩ := split_at_pair s._colors i hi
    have hs : s = ⟨pre ++ x :: y :: t⟩ := by cases s; simp_all
    have h0 := colors_index_at pre x (y :: t)
    have h1 := colors_index_at_succ pre x y t
    rw [hs, ← hl, swap_at]
    simp only [disk_state.swap_run, disk_state.is_index, disk_state.total_count, h0, h1]
    simp
  · rw [swap_none s i hi]
    simp only [disk_state.swap_run, disk_state.is_index]
    by_cases h0 : i < s.total_count
    · simp [h0, hi]
    · simp [h0]

theorem std_equal_true_iff (l : List disk_color) :
    ∀ r, disk_state.std_equal l r = some true ↔ l <+: r := by
  induction l with
  | nil => intro r; simp [disk_state.std_equal]
  | cons x xs ih =>
    intro r
    cases r with
    | nil => simp [disk_state.std_equal]
    | cons y ys =>
      by_cases h : x = y
      · subst h
        simp [disk_state.std_equal, ih, List.cons_prefix_cons]
      · simp [disk_state.std_equal, h, List.cons_prefix_cons]

/-! ## The loops never trip an index assertion -/

theorem ltr_body_some (st : sort_state) (j : Nat) (h : j + 1 < st.1.total_count) :
    ∃ st', ltr_body st j = some st' ∧ st'.1.total_count = st.1.total_count := by
  obtain ⟨s, c⟩ := st
  obtain ⟨pre, x, y, t, e, hl⟩ := split_at_pair s._colors j h
  have hs : s = ⟨pre ++ x :: y :: t⟩ := by cases s; simp_all
  subst hs
  subst hl
  rw [ltr_body_at]
  by_cases hc : x = DISK_DARK ∧ y = DISK_LIGHT
  · rw [if_pos hc]; exact ⟨_, rfl, by simp [disk_state.total_count]⟩
  · rw [if_neg hc]; exact ⟨_, rfl, rfl⟩

theorem rtl_body_some (st : sort_state) (j : Nat) (h : j + 1 < st.1.total_count) :
    ∃ st', rtl_body st (j + 1) = some st' ∧ st'.1.total_count = st.1.total_count := by
  obtain ⟨s, c⟩ := st
  obtain ⟨pre, x, y, t, e, hl⟩ := split_at_pair s._colors j h
  have hs : s = ⟨pre ++ x :: y :: t⟩ := by cases s; simp_all
  subst hs
  subst hl
  rw [rtl_body_at]
  by_cases hc : y = DISK_LIGHT ∧ x = DISK_DARK
  · rw [if_pos hc]; exact ⟨_, rfl, by simp [disk_state.total_count]⟩
  · rw [if_neg hc]; exact ⟨_, rfl, rfl⟩

theorem ltr_body_calls_in_range (st : sort_state) (j : Nat) (h : j + 1 < st.1.total_count) :
    ∀ c ∈ ltr_body_calls st j, c.in_range := by
  intro c hc
  simp only [ltr_body_calls] at hc
  split_ifs at hc <;> simp only [List.mem_cons, List.mem_singleton, List.not_mem_nil,
    or_false] at hc <;> rcases hc with rfl | rfl | rfl <;>
    simp only [loop_call.in_range] <;> omega

theorem rtl_body_calls_in_range (st : sort_state) (j : Nat) (h : j + 1 < st.1.total_count) :
    ∀ c ∈ rtl_body_calls st (j + 1), c.in_range := by
  intro c hc
  simp only [rtl_body_calls] at hc
  split_ifs at hc <;> simp only [List.mem_cons, List.mem_singleton, List.not_mem_nil,
    or_false] at hc <;> rcases hc with rfl | rfl | rfl <;>
    simp only [loop_call.in_range] <;> omega

theorem ltr_loop_safe (k : Nat) :
    ∀ (j : Nat) (st : sort_state), (k = 0 ∨ j + k < st.1.total_count) →
      (∃ st', ltr_loop k j st = some st' ∧ st'.1.total_count = st.1.total_count) ∧
        ∀ c ∈ ltr_loop_calls k j st, c.in_range := by
  induction k with
  | zero => intro j st _; exact ⟨⟨st, rfl, rfl⟩, by simp [ltr_loop_calls]⟩
  | succ k ih =>
    intro j st h
    have hj : j + 1 < st.1.total_count := by omega
    obtain ⟨st1, h1, t1⟩ := ltr_body_some st j hj
    obtain ⟨⟨st2, h2, t2⟩, hcalls⟩ := ih (j + 1) st1 (by omega)
    refine ⟨⟨st2, ?_, by rw [t2, t1]⟩, fun c hc => ?_⟩
    · rw [ltr_loop, h1]; exact h2
    · simp only [ltr_loop_calls, h1, List.mem_append] at hc
      rcases hc with hc | hc
      · exact ltr_body_calls_in_range st j hj c hc
      · exact hcalls c hc

theorem rtl_loop_safe (j : Nat) :
    ∀ (st : sort_state), (j = 0 ∨ j < st.1.total_count) →
      (∃ st', rtl_loop j st = some st' ∧ st'.1.total_count = st.1.total_count) ∧
        ∀ c ∈ rtl_loop_calls j st, c.in_range := by
  induction j with
  | zero => intro st _; exact ⟨⟨st, rfl, rfl⟩, by simp [rtl_loop_calls]⟩
  | succ j ih =>
    intro st h
    have hj : j + 1 < st.1.total_count := by omega
    obtain ⟨st1, h1, t1⟩ := rtl_body_some st j hj
    obtain ⟨⟨st2, h2, t2⟩, hcalls⟩ := ih st1 (by omega)
    refine ⟨⟨st2, ?_, by rw [t2, t1]⟩, fun c hc => ?_⟩
    · rw [rtl_loop, h1]; exact h2
    · simp only [rtl_loop_calls, h1, List.mem_append] at hc
      rcases hc with hc | hc
      · exact rtl_body_calls_in_range st j hj c hc
      · exact hcalls c hc

theorem ltr_pass_safe (st : sort_state) :
    (∃ st', ltr_pass st = some st' ∧ st'.1.total_count = st.1.total_count) ∧
      ∀ c ∈ ltr_pass_calls st, c.in_range :=
  ltr_loop_safe (st.1.total_count - 1) 0 st (by omega)

theorem rtl_pass_safe (st : sort_state) :
    (∃ st', rtl_pass st = some st' ∧ st'.1.total_count = st.1.total_count) ∧
      ∀ c ∈ rtl_pass_calls st, c.in_range :=
  rtl_loop_safe (st.1.total_count - 1) st (by omega)

theorem ltr_outer_safe (k : Nat) :
    ∀ (st : sort_state),
      (∃ st', ltr_outer k st = some st') ∧ ∀ c ∈ ltr_outer_calls k st, c.in_range := by
  induction k with
  | zero => intro st; exact ⟨⟨st, rfl⟩, by simp [ltr_outer_calls]⟩
  | succ k ih =>
    intro st
    obtain ⟨⟨st1, h1, _⟩, hc1⟩ := ltr_pass_safe st
    obtain ⟨⟨st2, h2⟩, hc2⟩ := ih st1
    refine ⟨⟨st2, ?_⟩, fun c hc => ?_⟩
    · rw [ltr_outer, h1]; exact h2
    · simp only [ltr_outer_calls, h1, List.mem_append] at hc
      rcases hc with hc | hc
      · exact hc1 c hc
      · exact hc2 c hc

theorem lawnmower_outer_safe (k : Nat) :
    ∀ (st : sort_state),
      (∃ st', lawnmower_outer k st = some st') ∧
        ∀ c ∈ lawnmower_outer_calls k st, c.in_range := by
  induction k with
  | zero => intro st; exact ⟨⟨st, rfl⟩, by simp [lawnmower_outer_calls]⟩
  | succ k ih =>
    intro st
    obtain ⟨⟨st1, h1, _⟩, hc1⟩ := ltr_pass_safe st
    obtain ⟨⟨st2, h2, _⟩, hc2⟩ := rtl_pass_safe st1
    obtain ⟨⟨st3, h3⟩, hc3⟩ := ih st2
    refine ⟨⟨st3, ?_⟩, fun c hc => ?_⟩
    · rw [lawnmower_outer, h1]
      simp only [Option.bind_eq_bind, Option.some_bind, h2]
      exact h3
    · simp only [lawnmower_outer_calls, h1, h2, List.mem_append] at hc
      rcases hc with hc | hc | hc
      · exact hc1 c hc
      · exact hc2 c hc
      · exact hc3 c hc

theorem sort_left_to_right_some (s : disk_state) (h : s.is_alternating = some true) :
    ∃ a, sort_left_to_right s = some a := by
  obtain ⟨⟨st, hst⟩, _⟩ := ltr_outer_safe s.dark_count (s, 0)
  exact ⟨sorted_disks.ctor st.1 st.2, by simp [sort_left_to_right, h, hst]⟩

theorem sort_lawnmower_some (s : disk_state) (h : s.is_alternating = some true) :
    ∃ a, sort_lawnmower s = some a := by
  obtain ⟨⟨st, hst⟩, _⟩ := lawnmower_outer_safe (s.dark_count / 2) (s, 0)
  exact ⟨sorted_disks.ctor st.1 st.2, by simp [sort_lawnmower, h, hst]⟩

theorem sort_left_to_right_calls_in_range (s : disk_state) :
    ∀ c ∈ sort_left_to_right_calls s, c.in_range := by
  intro c hc
  simp only [sort_left_to_right_calls] at hc
  split_ifs at hc
  · exact (ltr_outer_safe _ _).2 c hc
  · simp at hc

theorem sort_lawnmower_calls_in_range (s : disk_state) :
    ∀ c ∈ sort_lawnmower_calls s, c.in_range := by
  intro c hc
  simp only [sort_lawnmower_calls] at hc
  split_ifs at hc
  · exact (lawnmower_outer_safe _ _).2 c hc
  · simp at hc

/-! ## The freshly constructed row seen by the predicates -/

theorem is_sorted_alt (n : Nat) (h : 1 ≤ n) :
    disk_state.is_sorted ⟨alt_row DISK_LIGHT DISK_DARK n⟩ = some (decide (n = 1)) := by
  rw [is_sorted_eq]
  have hl : (alt_row DISK_LIGHT DISK_DARK n).length / 2 = n := by
    rw [alt_row_length]; omega
  simp only [hl]
  match n, h with
  | 1, _ => rfl
  | m + 2, _ => simp [alt_row]

theorem pairs_differ_odd (m : Nat) :
    ∀ (a b : disk_color) (t : List disk_color), a ≠ b → t.length = 2 * m →
      pairs_differ (a :: t) = true → t = alt_row b a m := by
  induction m with
  | zero =>
    intro a b t _ hl _
    have : t = [] := List.eq_nil_of_length_eq_zero (by omega)
    rw [this]; rfl
  | succ m ih =>
    intro a b t hab hl hp
    match t, hl with
    | y :: z :: t', hl =>
      simp only [pairs_differ, Bool.and_eq_true, decide_eq_true_eq] at hp
      obtain ⟨hay, hyz, hrest⟩ := hp
      have hy : y = b := by
        rcases color_dichotomy a b hab y with e | e
        · exact absurd e.symm hay
        · exact e
      subst hy
      have hz : z = a := by
        rcases color_dichotomy a y hab z with e | e
        · exact e
        · exact absurd e.symm hyz
      subst hz
      have hl' : t'.length = 2 * m := by simp at hl; omega
      have hp' : pairs_differ (z :: t') = true := by
        cases t' with
        | nil => rfl
        | cons w ws => exact hrest
      rw [ih z y t' hab hl' hp']
      rfl

theorem is_alternating_reachable (n : Nat) (r : disk_state) (hr : reachable n r)
    (ha : r.is_alternating = some true) :
    r._colors = alt_row DISK_LIGHT DISK_DARK (n % 2 ^ 63) := by
  obtain ⟨_, ht, hl, _⟩ := reachable_counts n r hr
  generalize n % 2 ^ 63 = k at ht hl ⊢
  obtain ⟨l⟩ := r
  simp only [disk_state.total_count] at ht hl ⊢
  match k, l, ht with
  | 0, [], _ => rfl
  | m + 1, x :: y :: t, ht =>
    rw [is_alternating_cons] at ha
    simp only [Option.some.injEq, Bool.and_eq_true, decide_eq_true_eq] at ha
    obtain ⟨hx, hp⟩ := ha
    subst hx
    have ht' : t.length = 2 * m := by simp at ht; omega
    cases y with
    | DISK_DARK =>
      rw [pairs_differ_odd m DISK_DARK DISK_LIGHT t dark_ne_light ht' hp]
      rfl
    | DISK_LIGHT =>
      have e := pairs_differ_odd m DISK_LIGHT DISK_DARK t light_ne_dark ht' hp
      rw [e] at hl
      simp only [List.count_cons_self, alt_row_count _ _ dark_ne_light] at hl
      omega

theorem triangle_large (n : Nat) (h : 92683 ≤ n) : 2 ^ 32 ≤ n * (n - 1) / 2 := by
  have h1 : 92683 * 92682 ≤ n * (n - 1) := Nat.mul_le_mul h (by omega)
  omega

theorem first_call_mem (n : Nat) (h : 1 ≤ n) :
    loop_call.get_j 0 (2 * n) ∈
      sort_left_to_right_calls ⟨alt_row DISK_LIGHT DISK_DARK n⟩ := by
  have ha := is_alternating_alt n h
  obtain ⟨m, rfl⟩ : ∃ m, n = m + 1 := ⟨n - 1, by omega⟩
  have hk : disk_state.total_count ⟨alt_row DISK_LIGHT DISK_DARK (m + 1)⟩ - 1 = 2 * m + 1 := by
    simp [disk_state.total_count, alt_row_length]; omega
  have ht : disk_state.total_count ⟨alt_row DISK_LIGHT DISK_DARK (m + 1)⟩ = 2 * (m + 1) := by
    simp [disk_state.total_count, alt_row_length]
  simp only [sort_left_to_right_calls, ha, if_true, dark_count_alt, ltr_outer_calls,
    ltr_pass_calls, hk, ltr_loop_calls, ltr_body_calls, ht]
  simp
/-! ## The caller's row during a sort -/

/-- State `(sorted, count)` of a sort put back beside the caller's row. -/
theorem ltr_body_env_eq (e : sort_env) (j : Nat) :
    ltr_body_env e j =
      (ltr_body (e.sorted, e.count) j).map (fun st => ⟨e.before, st.1, st.2⟩) := by
  simp only [ltr_body_env, ltr_body, Option.bind_eq_bind, Option.pure_def]
  cases e.sorted.get j with
  | none => rfl
  | some cj =>
    simp only [Option.some_bind]
    split_ifs
    · cases e.sorted.get (j + 1) with
      | none => rfl
      | some cn =>
        simp only [Option.some_bind]
        split_ifs
        · cases e.sorted.swap j <;> rfl
        · rfl
    · rfl

theorem rtl_body_env_eq (e : sort_env) (j : Nat) :
    rtl_body_env e j =
      (rtl_body (e.sorted, e.count) j).map (fun st => ⟨e.before, st.1, st.2⟩) := by
  simp only [rtl_body_env, rtl_body, Option.bind_eq_bind, Option.pure_def]
  cases e.sorted.get j with
  | none => rfl
  | some cj =>
    simp only [Option.some_bind]
    split_ifs
    · cases e.sorted.get (j - 1) with
      | none => rfl
      | some cn =>
        simp only [Option.some_bind]
        split_ifs
        · cases e.sorted.swap (j - 1) <;> rfl
        · rfl
    · rfl

theorem ltr_loop_env_eq (k : Nat) :
    ∀ (j : Nat) (e : sort_env),
      ltr_loop_env k j e =
        (ltr_loop k j (e.sorted, e.count)).map (fun st => ⟨e.before, st.1, st.2⟩) := by
  induction k with
  | zero => intro j e; rfl
  | succ k ih =>
    intro j e
    simp only [ltr_loop_env, ltr_loop, ltr_body_env_eq, Option.bind_eq_bind]
    cases ltr_body (e.sorted, e.count) j with
    | none => rfl
    | some st => simp only [Option.map_some', Option.some_bind, ih]

theorem rtl_loop_env_eq (j : Nat) :
    ∀ (e : sort_env),
      rtl_loop_env j e =
        (rtl_loop j (e.sorted, e.count)).map (fun st => ⟨e.before, st.1, st.2⟩) := by
  induction j with
  | zero => intro e; rfl
  | succ j ih =>
    intro e
    simp only [rtl_loop_env, rtl_loop, rtl_body_env_eq, Option.bind_eq_bind]
    cases rtl_body (e.sorted, e.count) (j + 1) with
    | none => rfl
    | some st => simp only [Option.map_some', Option.some_bind, ih]

theorem ltr_pass_env_eq (e : sort_env) :
    ltr_pass_env e =
      (ltr_pass (e.sorted, e.count)).map (fun st => ⟨e.before, st.1, st.2⟩) :=
  ltr_loop_env_eq _ 0 e

theorem rtl_pass_env_eq (e : sort_env) :
    rtl_pass_env e =
      (rtl_pass (e.sorted, e.count)).map (fun st => ⟨e.before, st.1, st.2⟩) :=
  rtl_loop_env_eq _ e

theorem ltr_outer_env_eq (k : Nat) :
    ∀ (e : sort_env),
      ltr_outer_env k e =
        (ltr_outer k (e.sorted, e.count)).map (fun st => ⟨e.before, st.1, st.2⟩) := by
  induction k with
  | zero => intro e; rfl
  | succ k ih =>
    intro e
    simp only [ltr_outer_env, ltr_outer, ltr_pass_env_eq, Option.bind_eq_bind]
    cases ltr_pass (e.sorted, e.count) with
    | none => rfl
    | some st => simp only [Option.map_some', Option.some_bind, ih]

theorem lawnmower_outer_env_eq (k : Nat) :
    ∀ (e : sort_env),
      lawnmower_outer_env k e =
        (lawnmower_outer k (e.sorted, e.count)).map (fun st => ⟨e.before, st.1, st.2⟩) := by
  induction k with
  | zero => intro e; rfl
  | succ k ih =>
    intro e
    simp only [lawnmower_outer_env, lawnmower_outer, ltr_pass_env_eq, Option.bind_eq_bind]
    cases ltr_pass (e.sorted, e.count) with
    | none => rfl
    | some st =>
      simp only [Option.map_some', Option.some_bind, rtl_pass_env_eq]
      cases rtl_pass (st.1, st.2) with
      | none => rfl
      | some st2 => simp only [Option.map_some', Option.some_bind, ih]

theorem sort_left_to_right_env_alt (k : Nat) (h : 1 ≤ k) :
    sort_left_to_right_env ⟨alt_row DISK_LIGHT DISK_DARK k⟩ =
      some (⟨⟨alt_row DISK_LIGHT DISK_DARK k⟩, ⟨sorted_row k⟩, k * (k - 1) / 2⟩,
        sorted_disks.ctor ⟨sorted_row k⟩ (k * (k - 1) / 2)) := by
  have ha := is_alternating_alt k h
  obtain ⟨m, rfl⟩ : ∃ m, k = m + 1 := ⟨k - 1, by omega⟩
  have ho := ltr_outer_mid (m + 1) m 0 0 (by omega)
  rw [← alt_row_eq_mid, Nat.zero_add, Nat.zero_add, mid_row_zero] at ho
  simp only [sort_left_to_right_env, ha, if_true, dark_count_alt, ltr_outer_env_eq, ho,
    Option.map_some', Option.bind_eq_bind, Option.some_bind, Option.pure_def,
    Nat.add_sub_cancel]
  rw [Nat.mul_comm]

theorem sort_lawnmower_env_alt (k : Nat) (h : 1 ≤ k) :
    sort_lawnmower_env ⟨alt_row DISK_LIGHT DISK_DARK k⟩ =
      some (⟨⟨alt_row DISK_LIGHT DISK_DARK k⟩, ⟨sorted_row k⟩, k * (k - 1) / 2⟩,
        sorted_disks.ctor ⟨sorted_row k⟩ (k * (k - 1) / 2)) := by
  have ha := is_alternating_alt k h
  obtain ⟨m, rfl⟩ : ∃ m, k = m + 1 := ⟨k - 1, by omega⟩
  have ho := lawnmower_outer_mid ((m + 1) / 2) m 0 0 (by omega)
  rw [← alt_row_eq_mid, Nat.zero_add, Nat.zero_add, mid_row_zero] at ho
  simp only [sort_lawnmower_env, ha, if_true, dark_count_alt, lawnmower_outer_env_eq, ho,
    Option.map_some', Option.bind_eq_bind, Option.some_bind, Option.pure_def,
    Nat.add_sub_cancel]
  rw [Nat.mul_comm]

/-! ## Arithmetic of the wrapped light count -/

theorem triangle_mod (n : Nat) (h : 1 ≤ n % 2 ^ 63) :
    (n % 2 ^ 63) * (n % 2 ^ 63 - 1) / 2 % 2 ^ 32 = n * (n - 1) / 2 % 2 ^ 32 := by
  obtain ⟨k, hk⟩ : ∃ k, n % 2 ^ 63 = k + 1 := ⟨n % 2 ^ 63 - 1, by omega⟩
  have hn : n = 2 ^ 63 * (n / 2 ^ 63) + (k + 1) := by
    have := Nat.div_add_mod n (2 ^ 63)
    omega
  generalize n / 2 ^ 63 = q at hn
  rw [hk, hn]
  have e1 : 2 ^ 63 * q + (k + 1) - 1 = 2 ^ 63 * q + k := by omega
  have e2 : k + 1 - 1 = k := by omega
  rw [e1, e2]
  have e3 : (2 ^ 63 * q + (k + 1)) * (2 ^ 63 * q + k) =
      (k + 1) * k + 2 * (2 ^ 32 * (2 ^ 30 * q * (2 ^ 63 * q + 2 * k + 1))) := by ring
  rw [e3, Nat.add_mul_div_left _ _ (by decide : 0 < 2), Nat.add_mul_mod_self_left]

theorem ctor_wrapped_one :
    disk_state.ctor (2 ^ 63 + 1) = some ⟨[DISK_LIGHT, DISK_DARK]⟩ := by
  have e : (2 ^ 63 + 1) % 2 ^ 63 = 1 := by norm_num
  have h := ctor_eq (2 ^ 63 + 1) (by omega)
  rw [e] at h
  exact h

theorem ctor_wrapped_zero : disk_state.ctor (2 ^ 63) = none :=
  ctor_none (2 ^ 63) (by norm_num)

/-- C3, as the code has it: for every `n ≥ 1` the swap count returned by `sort_left_to_right`
on `disk_state(n)` is `n (n - 1) / 2` reduced modulo `2 ^ 32`, the range of the `unsigned`
that stores it; it is `n (n - 1) / 2` itself whenever `n ≤ 92682`. -/
theorem sort_left_to_right_swap_count (n : Nat) (h : 1 ≤ n) :
    (n < 2 ^ 63 → ∃ r res, disk_state.ctor n = some r ∧ sort_left_to_right r = some res ∧
        res.swap_count = n * (n - 1) / 2 % 2 ^ 32 ∧
        (n ≤ 92682 → res.swap_count = n * (n - 1) / 2)) ∧
      ∀ r, disk_state.ctor n = some r → ∃ res, sort_left_to_right r = some res ∧
        res.swap_count = n * (n - 1) / 2 % 2 ^ 32 ∧
        (n ≤ 92682 → res.swap_count = n * (n - 1) / 2) := by
  constructor
  · intro hn
    exact ⟨_, _, ctor_eq_small n h hn, sort_left_to_right_alt n h, rfl,
      fun hs => Nat.mod_eq_of_lt (triangle_small n hs)⟩
  · intro r hr
    obtain ⟨hk, rfl⟩ := ctor_some n r hr
    have hm := triangle_mod n hk
    refine ⟨_, sort_left_to_right_alt _ hk, hm, fun hs => ?_⟩
    exact hm.trans (Nat.mod_eq_of_lt (triangle_small n hs))

theorem sort_left_to_right_swap_count_witness :
    1 ≤ 4 ∧ (4 < 2 ^ 63 → ∃ r res, disk_state.ctor 4 = some r ∧
        sort_left_to_right r = some res ∧
        res.swap_count = 4 * (4 - 1) / 2 % 2 ^ 32 ∧
        (4 ≤ 92682 → res.swap_count = 4 * (4 - 1) / 2)) ∧
      ∀ r, disk_state.ctor 4 = some r → ∃ res, sort_left_to_right r = some res ∧
        res.swap_count = 4 * (4 - 1) / 2 % 2 ^ 32 ∧
        (4 ≤ 92682 → res.swap_count = 4 * (4 - 1) / 2) :=
  ⟨by decide, sort_left_to_right_swap_count 4 (by decide)⟩

/-- C3 as stated fails at `n = 92683`: the loop counts `4295022903` swaps, the result
stores `55607`. -/
theorem sort_left_to_right_swap_count_truncated :
    ∃ r res, disk_state.ctor 92683 = some r ∧ sort_left_to_right r = some res ∧
      res.swap_count = 55607 ∧ res.swap_count ≠ 92683 * (92683 - 1) / 2 := by
  refine ⟨_, _, ctor_eq_small 92683 (by decide) (by norm_num),
    sort_left_to_right_alt 92683 (by decide), ?_, ?_⟩
  · show 92683 * (92683 - 1) / 2 % 2 ^ 32 = 55607
    norm_num
  · show 92683 * (92683 - 1) / 2 % 2 ^ 32 ≠ 92683 * (92683 - 1) / 2
    norm_num

/-- C4: for every `n ≥ 1`, on `disk_state(n)` the swap count of `sort_lawnmower` is at most
the swap count of `sort_left_to_right`, and the two are equal when `n ≤ 1`. -/
theorem lawnmower_swap_count_le (n : Nat) (h : 1 ≤ n) :
    (n < 2 ^ 63 → ∃ r a b, disk_state.ctor n = some r ∧ sort_lawnmower r = some a ∧
        sort_left_to_right r = some b ∧ a.swap_count ≤ b.swap_count ∧
        (n ≤ 1 → a.swap_count = b.swap_count)) ∧
      ∀ r, disk_state.ctor n = some r → ∃ a b, sort_lawnmower r = some a ∧
        sort_left_to_right r = some b ∧ a.swap_count ≤ b.swap_count ∧
        (n ≤ 1 → a.swap_count = b.swap_count) := by
  constructor
  · intro hn
    exact ⟨_, _, _, ctor_eq_small n h hn, sort_lawnmower_alt n h, sort_left_to_right_alt n h,
      Nat.le_refl _, fun _ => rfl⟩
  · intro r hr
    obtain ⟨hk, rfl⟩ := ctor_some n r hr
    exact ⟨_, _, sort_lawnmower_alt _ hk, sort_left_to_right_alt _ hk, Nat.le_refl _,
      fun _ => rfl⟩

theorem lawnmower_swap_count_le_witness :
    1 ≤ 5 ∧ (5 < 2 ^ 63 → ∃ r a b, disk_state.ctor 5 = some r ∧ sort_lawnmower r = some a ∧
        sort_left_to_right r = some b ∧ a.swap_count ≤ b.swap_count ∧
        (5 ≤ 1 → a.swap_count = b.swap_count)) ∧
      ∀ r, disk_state.ctor 5 = some r → ∃ a b, sort_lawnmower r = some a ∧
        sort_left_to_right r = some b ∧ a.swap_count ≤ b.swap_count ∧
        (5 ≤ 1 → a.swap_count = b.swap_count) :=
  ⟨by decide, lawnmower_swap_count_le 5 (by decide)⟩

/-- C5, as the code has it: for every `n` with `1 ≤ n < 2 ^ 63`,
`sort_left_to_right(disk_state(n))` and `sort_lawnmower(disk_state(n))` return the same final
row, which has `2 n` disks, light at every index in `[0, n)` and dark at every index in
`[n, 2 n)`; and for every `n ≥ 1`, whenever `disk_state(n)` is constructed the two final rows
are the same row, with `dark_count()` light disks followed by `dark_count()` dark disks. -/
theorem sorts_same_final_row (n : Nat) (h : 1 ≤ n) :
    (n < 2 ^ 63 → ∃ r a b, disk_state.ctor n = some r ∧ sort_left_to_right r = some a ∧
        sort_lawnmower r = some b ∧ a.after = b.after ∧ a.after.total_count = 2 * n ∧
        (∀ i, i < n → a.after.get i = some DISK_LIGHT) ∧
        (∀ i, n ≤ i → i < 2 * n → a.after.get i = some DISK_DARK)) ∧
      ∀ r, disk_state.ctor n = some r → ∃ a b, sort_left_to_right r = some a ∧
        sort_lawnmower r = some b ∧ a.after = b.after ∧
        a.after.total_count = r.total_count ∧
        (∀ i, i < r.dark_count → a.after.get i = some DISK_LIGHT) ∧
        (∀ i, r.dark_count ≤ i → i < r.total_count → a.after.get i = some DISK_DARK) := by
  constructor
  · intro hn
    refine ⟨_, _, _, ctor_eq_small n h hn, sort_left_to_right_alt n h, sort_lawnmower_alt n h,
      rfl, sorted_row_length n, fun i hi => ?_, fun i h1 h2 => ?_⟩
    · rw [get_eq_index]; exact sorted_row_index_low n i hi
    · rw [get_eq_index]; exact sorted_row_index_high n i h1 h2
  · intro r hr
    obtain ⟨hk, rfl⟩ := ctor_some n r hr
    have ht : disk_state.total_count ⟨alt_row DISK_LIGHT DISK_DARK (n % 2 ^ 63)⟩ =
        2 * (n % 2 ^ 63) := alt_row_length _ _ _
    refine ⟨_, _, sort_left_to_right_alt _ hk, sort_lawnmower_alt _ hk, rfl, ?_,
      fun i hi => ?_, fun i h1 h2 => ?_⟩
    · rw [ht]; exact sorted_row_length _
    · rw [dark_count_alt] at hi
      rw [get_eq_index]; exact sorted_row_index_low _ i hi
    · rw [dark_count_alt] at h1
      rw [ht] at h2
      rw [get_eq_index]; exact sorted_row_index_high _ i h1 h2

theorem sorts_same_final_row_witness :
    1 ≤ 4 ∧ (4 < 2 ^ 63 → ∃ r a b, disk_state.ctor 4 = some r ∧
        sort_left_to_right r = some a ∧
        sort_lawnmower r = some b ∧ a.after = b.after ∧ a.after.total_count = 2 * 4 ∧
        (∀ i, i < 4 → a.after.get i = some DISK_LIGHT) ∧
        (∀ i, 4 ≤ i → i < 2 * 4 → a.after.get i = some DISK_DARK)) ∧
      ∀ r, disk_state.ctor 4 = some r → ∃ a b, sort_left_to_right r = some a ∧
        sort_lawnmower r = some b ∧ a.after = b.after ∧
        a.after.total_count = r.total_count ∧
        (∀ i, i < r.dark_count → a.after.get i = some DISK_LIGHT) ∧
        (∀ i, r.dark_count ≤ i → i < r.total_count → a.after.get i = some DISK_DARK) :=
  ⟨by decide, sorts_same_final_row 4 (by decide)⟩

/-- C5 as stated fails at `n = 2 ^ 63 + 1`: both sorts return the row `L D` of 2 disks, not a
row of `2 n` disks. -/
theorem sorts_final_row_wrapped :
    ∃ r a b, disk_state.ctor (2 ^ 63 + 1) = some r ∧ sort_left_to_right r = some a ∧
      sort_lawnmower r = some b ∧ a.after._colors = [DISK_LIGHT, DISK_DARK] ∧
      b.after._colors = [DISK_LIGHT, DISK_DARK] ∧ a.after.total_count = 2 ∧
      a.after.total_count ≠ 2 * (2 ^ 63 + 1) :=
  ⟨_, _, _, ctor_wrapped_one, rfl, rfl, rfl, rfl, rfl, by
    show 2 ≠ 2 * (2 ^ 63 + 1)
    norm_num⟩

/-- C6, as the code has it: for every light count `n` with `1 ≤ n < 2 ^ 63` the constructor
`disk_state(n)` produces a row with `total_count() = 2 n` in which `get(i)` is light for every
even `i < 2 n` and dark for every odd `i < 2 n`; for every `n ≥ 1`, a row that is constructed
has `2 (n mod 2 ^ 63)` disks, light at its even and dark at its odd indices. -/
theorem ctor_alternating_colors (n : Nat) (h : 1 ≤ n) :
    (n < 2 ^ 63 → ∃ r, disk_state.ctor n = some r ∧ r.total_count = 2 * n ∧
        (∀ i, i < 2 * n → i % 2 = 0 → r.get i = some DISK_LIGHT) ∧
        (∀ i, i < 2 * n → i % 2 = 1 → r.get i = some DISK_DARK)) ∧
      ∀ r, disk_state.ctor n = some r → r.total_count = 2 * (n % 2 ^ 63) ∧
        (∀ i, i < r.total_count → i % 2 = 0 → r.get i = some DISK_LIGHT) ∧
        (∀ i, i < r.total_count → i % 2 = 1 → r.get i = some DISK_DARK) := by
  constructor
  · intro hn
    refine ⟨_, ctor_eq_small n h hn, alt_row_length _ _ n, fun i hi he => ?_,
      fun i hi ho => ?_⟩
    · rw [get_eq_index, alt_row_index _ _ n i hi, if_pos he]
    · rw [get_eq_index, alt_row_index _ _ n i hi, if_neg (by omega)]
  · intro r hr
    obtain ⟨_, rfl⟩ := ctor_some n r hr
    have ht : disk_state.total_count ⟨alt_row DISK_LIGHT DISK_DARK (n % 2 ^ 63)⟩ =
        2 * (n % 2 ^ 63) := alt_row_length _ _ _
    refine ⟨ht, fun i hi he => ?_, fun i hi ho => ?_⟩
    · rw [ht] at hi
      rw [get_eq_index, alt_row_index _ _ _ i hi, if_pos he]
    · rw [ht] at hi
      rw [get_eq_index, alt_row_index _ _ _ i hi, if_neg (by omega)]

theorem ctor_alternating_colors_witness :
    1 ≤ 3 ∧ (3 < 2 ^ 63 → ∃ r, disk_state.ctor 3 = some r ∧ r.total_count = 2 * 3 ∧
        (∀ i, i < 2 * 3 → i % 2 = 0 → r.get i = some DISK_LIGHT) ∧
        (∀ i, i < 2 * 3 → i % 2 = 1 → r.get i = some DISK_DARK)) ∧
      ∀ r, disk_state.ctor 3 = some r → r.total_count = 2 * (3 % 2 ^ 63) ∧
        (∀ i, i < r.total_count → i % 2 = 0 → r.get i = some DISK_LIGHT) ∧
        (∀ i, i < r.total_count → i % 2 = 1 → r.get i = some DISK_DARK) :=
  ⟨by decide, ctor_alternating_colors 3 (by decide)⟩

/-- C6 as stated fails at `light_count = 2 ^ 63 + 1`: the product `light_count * 2` wraps to 2
and the constructor produces the row `L D`, with `total_count() = 2`. -/
theorem ctor_wrapped_total_count :
    ∃ r, disk_state.ctor (2 ^ 63 + 1) = some r ∧ r._colors = [DISK_LIGHT, DISK_DARK] ∧
      r.total_count = 2 ∧ r.total_count ≠ 2 * (2 ^ 63 + 1) :=
  ⟨_, ctor_wrapped_one, rfl, rfl, by
    show 2 ≠ 2 * (2 ^ 63 + 1)
    norm_num⟩

/-! ## Claims about the predicates and the reachable rows -/

theorem reachable_wrapped_one : reachable (2 ^ 63 + 1) ⟨[DISK_LIGHT, DISK_DARK]⟩ :=
  reachable.start _ ctor_wrapped_one

/-- C8: for every light count `n ≥ 1` the freshly constructed row `disk_state(n)` reports
`is_alternating() = true`, and the row `L L D D`, which is `disk_state(2)` after `swap(1)`,
reports `is_alternating() = false`. -/
theorem is_alternating_fresh_and_lldd (n : Nat) (h : 1 ≤ n) :
    (n < 2 ^ 63 → ∃ r, disk_state.ctor n = some r ∧ r.is_alternating = some true) ∧
      (∀ r, disk_state.ctor n = some r → r.is_alternating = some true) ∧
      ∃ r r', disk_state.ctor 2 = some r ∧ r.swap 1 = some r' ∧
        r'._colors = [DISK_LIGHT, DISK_LIGHT, DISK_DARK, DISK_DARK] ∧
        r'.is_alternating = some false := by
  refine ⟨fun hn => ⟨_, ctor_eq_small n h hn, is_alternating_alt n h⟩, fun r hr => ?_,
    _, _, rfl, rfl, rfl, rfl⟩
  obtain ⟨hk, rfl⟩ := ctor_some n r hr
  exact is_alternating_alt _ hk

theorem is_alternating_fresh_and_lldd_witness :
    1 ≤ 3 ∧ (3 < 2 ^ 63 → ∃ r, disk_state.ctor 3 = some r ∧ r.is_alternating = some true) ∧
      (∀ r, disk_state.ctor 3 = some r → r.is_alternating = some true) ∧
      ∃ r r', disk_state.ctor 2 = some r ∧ r.swap 1 = some r' ∧
        r'._colors = [DISK_LIGHT, DISK_LIGHT, DISK_DARK, DISK_DARK] ∧
        r'.is_alternating = some false :=
  ⟨by decide, is_alternating_fresh_and_lldd 3 (by decide)⟩

/-- C9, as the code has it: for every `n ≥ 1` and every row reachable from `disk_state(n)` by
valid `swap` calls, the number of light disks equals the number of dark disks, both equal
`light_count() = dark_count() = total_count() / 2`, and `total_count()` is even; that common
number is `n mod 2 ^ 63`, which is `n` when `n < 2 ^ 63`. -/
theorem reachable_balanced (n : Nat) (h : 1 ≤ n) (r : disk_state) (hr : reachable n r) :
    r._colors.count DISK_LIGHT = r._colors.count DISK_DARK ∧
      r._colors.count DISK_LIGHT = r.light_count ∧ r.light_count = r.dark_count ∧
      r.dark_count = r.total_count / 2 ∧ r.total_count % 2 = 0 ∧
      r.dark_count = n % 2 ^ 63 ∧
      (n < 2 ^ 63 → r._colors.count DISK_LIGHT = n ∧ r._colors.count DISK_DARK = n ∧
        r.light_count = n ∧ r.dark_count = n ∧ r.total_count / 2 = n) := by
  have _hn := h
  obtain ⟨_, ht, hl, hd⟩ := reachable_counts n r hr
  have h2 : r.total_count / 2 = n % 2 ^ 63 := by omega
  have hdc : r.dark_count = n % 2 ^ 63 := h2
  have hlc : r.light_count = n % 2 ^ 63 := h2
  refine ⟨by rw [hl, hd], by rw [hl, hlc], by rw [hlc, hdc], rfl, by omega, hdc,
    fun hn => ?_⟩
  have e : n % 2 ^ 63 = n := Nat.mod_eq_of_lt hn
  rw [e] at hl hd hlc hdc h2
  exact ⟨hl, hd, hlc, hdc, h2⟩

theorem reachable_balanced_witness :
    1 ≤ 2 ∧ reachable 2 ⟨[DISK_LIGHT, DISK_LIGHT, DISK_DARK, DISK_DARK]⟩ ∧
      [DISK_LIGHT, DISK_LIGHT, DISK_DARK, DISK_DARK].count DISK_LIGHT =
        [DISK_LIGHT, DISK_LIGHT, DISK_DARK, DISK_DARK].count DISK_DARK :=
  have hr : reachable 2 ⟨[DISK_LIGHT, DISK_LIGHT, DISK_DARK, DISK_DARK]⟩ :=
    reachable.step ⟨[DISK_LIGHT, DISK_DARK, DISK_LIGHT, DISK_DARK]⟩ _ 1
      (reachable.start _ rfl) rfl
  ⟨by decide, hr, (reachable_balanced 2 (by decide) _ hr).1⟩

/-- C9 as stated fails at `n = 2 ^ 63 + 1`: the constructed row `L D` is reachable and has
one disk of each colour, and `light_count() = dark_count() = 1`, not `n`. -/
theorem reachable_wrapped_counts :
    reachable (2 ^ 63 + 1) ⟨[DISK_LIGHT, DISK_DARK]⟩ ∧
      [DISK_LIGHT, DISK_DARK].count DISK_LIGHT = 1 ∧
      [DISK_LIGHT, DISK_DARK].count DISK_DARK = 1 ∧
      disk_state.dark_count ⟨[DISK_LIGHT, DISK_DARK]⟩ = 1 ∧
      disk_state.dark_count ⟨[DISK_LIGHT, DISK_DARK]⟩ ≠ 2 ^ 63 + 1 :=
  ⟨reachable_wrapped_one, rfl, rfl, rfl, by
    show 1 ≠ 2 ^ 63 + 1
    norm_num⟩

/-- C11: for every row and every index `i` with `i + 1 < total_count()`, after `swap(i)` the
colour at `i` is the previous colour at `i + 1`, the colour at `i + 1` is the previous colour
at `i`, the colour at every other index is unchanged, and `total_count()` is unchanged. -/
theorem swap_exchanges_neighbours (s : disk_state) (i : Nat) (h : i + 1 < s.total_count) :
    ∃ s', s.swap i = some s' ∧ s'.get i = s.get (i + 1) ∧ s'.get (i + 1) = s.get i ∧
      (∀ j, j ≠ i → j ≠ i + 1 → s'.get j = s.get j) ∧ s'.total_count = s.total_count := by
  obtain ⟨pre, x, y, t, e, hl⟩ := split_at_pair s._colors i h
  have hs : s = ⟨pre ++ x :: y :: t⟩ := by cases s; simp_all
  subst hs
  subst hl
  refine ⟨⟨pre ++ y :: x :: t⟩, swap_at pre x y t, ?_, ?_, fun j h0 h1 => ?_, ?_⟩
  · rw [get_at, get_at_succ]
  · rw [get_at_succ, get_at]
  · rw [get_eq_index, get_eq_index]
    exact colors_index_other pre x y t j h0 h1
  · simp [disk_state.total_count]

theorem swap_exchanges_neighbours_witness :
    1 + 1 < disk_state.total_count ⟨[DISK_LIGHT, DISK_DARK, DISK_LIGHT, DISK_DARK]⟩ ∧
      ∃ s', disk_state.swap ⟨[DISK_LIGHT, DISK_DARK, DISK_LIGHT, DISK_DARK]⟩ 1 = some s' ∧
        s'.get 1 = disk_state.get ⟨[DISK_LIGHT, DISK_DARK, DISK_LIGHT, DISK_DARK]⟩ (1 + 1) ∧
        s'.get (1 + 1) = disk_state.get ⟨[DISK_LIGHT, DISK_DARK, DISK_LIGHT, DISK_DARK]⟩ 1 ∧
        (∀ j, j ≠ 1 → j ≠ 1 + 1 →
          s'.get j = disk_state.get ⟨[DISK_LIGHT, DISK_DARK, DISK_LIGHT, DISK_DARK]⟩ j) ∧
        s'.total_count =
          disk_state.total_count ⟨[DISK_LIGHT, DISK_DARK, DISK_LIGHT, DISK_DARK]⟩ :=
  ⟨by decide, swap_exchanges_neighbours _ 1 (by decide)⟩

/-- C12: for every row and every index `i`, `swap(i)` fails on an assertion if and only if
`i + 1 ≥ total_count()`; in particular `swap(total_count() - 1)` fails; and the row held by
the object when a failed call stops is the row it held before the call. -/
theorem swap_fails_iff (s : disk_state) (i : Nat) :
    (s.swap i = none ↔ s.total_count ≤ i + 1) ∧
      s.swap (s.total_count - 1) = none ∧
      ((s.swap_run i).2 = false ↔ s.swap i = none) ∧
      ((s.swap_run i).2 = false → (s.swap_run i).1 = s) := by
  refine ⟨swap_none_iff s i, (swap_none_iff s _).mpr (by omega), ?_, ?_⟩
  · rw [swap_run_eq]
    cases s.swap i <;> simp
  · rw [swap_run_eq]
    cases s.swap i <;> simp

/-- C13, as the code has it: constructing `disk_state(light_count)` fails on its assertion if
and only if the `size_t` product `light_count * 2` is 0, that is for the light counts 0 and
`2 ^ 63`; for every `light_count` with `1 ≤ light_count < 2 ^ 63` the construction succeeds. -/
theorem ctor_fails_iff (light_count : Nat) :
    (disk_state.ctor light_count = none ↔ light_count * 2 % 2 ^ 64 = 0) ∧
      (light_count < 2 ^ 64 →
        (disk_state.ctor light_count = none ↔ light_count = 0 ∨ light_count = 2 ^ 63)) ∧
      (1 ≤ light_count → light_count < 2 ^ 63 → ∃ r, disk_state.ctor light_count = some r) := by
  refine ⟨?_, fun hlt => ?_, fun h1 h2 => ⟨_, ctor_eq_small light_count h1 h2⟩⟩
  · rw [ctor_none_iff, ctor_size]
    omega
  · rw [ctor_none_iff]
    omega

/-- C13 as stated fails at `light_count = 2 ^ 63`: the light count is at least 1, the product
`light_count * 2` wraps to 0 and the assertion `dark_count() > 0` stops the construction. -/
theorem ctor_fails_at_wrap :
    1 ≤ 2 ^ 63 ∧ 2 ^ 63 * 2 % 2 ^ 64 = 0 ∧ disk_state.ctor (2 ^ 63) = none :=
  ⟨by norm_num, by norm_num, ctor_wrapped_zero⟩

/-- C14: `disk_state(1) == disk_state(2)` is true although the two rows, `L D` and `L D L D`,
have different total counts: `std::equal` walks the left row only. With the operands
exchanged the comparison reads past the end of the right row. -/
theorem operator_eq_ignores_longer_rhs :
    ∃ a b, disk_state.ctor 1 = some a ∧ disk_state.ctor 2 = some b ∧
      a._colors = [DISK_LIGHT, DISK_DARK] ∧
      b._colors = [DISK_LIGHT, DISK_DARK, DISK_LIGHT, DISK_DARK] ∧
      a.operator_eq b = some true ∧ b.operator_eq a = none ∧
      a.total_count = 2 ∧ b.total_count = 4 :=
  ⟨_, _, rfl, rfl, rfl, rfl, rfl, rfl, rfl, rfl⟩

/-! ## Claims about the preconditions, the frame and the counts of the sorts -/

/-- C15: on every row on which `is_alternating()` is false both sorts stop on their assertion
and produce no result, as on `L L D D` (`disk_state(2)` after `swap(1)`); on every row on
which `is_alternating()` is true both sorts produce a result. -/
theorem sorts_check_alternating (s : disk_state) :
    (s.is_alternating = some false → sort_left_to_right s = none ∧ sort_lawnmower s = none) ∧
      (s.is_alternating = some true →
        (∃ a, sort_left_to_right s = some a) ∧ ∃ b, sort_lawnmower s = some b) ∧
      ∃ r r', disk_state.ctor 2 = some r ∧ r.swap 1 = some r' ∧
        r'._colors = [DISK_LIGHT, DISK_LIGHT, DISK_DARK, DISK_DARK] ∧
        r'.is_alternating = some false ∧
        sort_left_to_right r' = none ∧ sort_lawnmower r' = none := by
  refine ⟨fun h => ?_, fun h => ⟨sort_left_to_right_some s h, sort_lawnmower_some s h⟩,
    _, _, rfl, rfl, rfl, rfl, rfl, rfl⟩
  simp [sort_left_to_right, sort_lawnmower, h]

/-- C16, as the code has it: for every `n ≥ 1`, whenever `r = disk_state(n)` is constructed,
both sorts run to their end on it, and when they return the caller's row is still `r`, so
still `disk_state(n)` with `is_alternating()` true on it, while the returned row is the local
copy; `is_sorted()` on the caller's row is false exactly when it has at least two dark disks,
so false for `2 ≤ n < 2 ^ 63` and true for `n = 1`. -/
theorem sorts_leave_input (n : Nat) (h : 1 ≤ n) :
    (n < 2 ^ 63 → ∃ r, disk_state.ctor n = some r) ∧
      ∀ r, disk_state.ctor n = some r →
        ∃ e a e' b, sort_left_to_right_env r = some (e, a) ∧
          sort_lawnmower_env r = some (e', b) ∧
          sort_left_to_right r = some a ∧ sort_lawnmower r = some b ∧
          a.after = e.sorted ∧ b.after = e'.sorted ∧
          e.before = r ∧ e'.before = r ∧
          disk_state.ctor n = some e.before ∧ disk_state.ctor n = some e'.before ∧
          e.before.is_alternating = some true ∧ e'.before.is_alternating = some true ∧
          (e.before.is_sorted = some false ↔ 2 ≤ e.before.dark_count) ∧
          (e'.before.is_sorted = some false ↔ 2 ≤ e'.before.dark_count) ∧
          (2 ≤ n → n < 2 ^ 63 →
            e.before.is_sorted = some false ∧ e'.before.is_sorted = some false ∧
              a.after ≠ e.before ∧ b.after ≠ e'.before) ∧
          (n = 1 → e.before.is_sorted = some true ∧ e'.before.is_sorted = some true) := by
  refine ⟨fun hn => ⟨_, ctor_eq_small n h hn⟩, fun r hr => ?_⟩
  obtain ⟨hk, rfl⟩ := ctor_some n r hr
  have hs := is_sorted_alt (n % 2 ^ 63) hk
  have hiff : disk_state.is_sorted ⟨alt_row DISK_LIGHT DISK_DARK (n % 2 ^ 63)⟩ = some false ↔
      2 ≤ disk_state.dark_count ⟨alt_row DISK_LIGHT DISK_DARK (n % 2 ^ 63)⟩ := by
    rw [hs, dark_count_alt]
    simp only [Option.some.injEq, decide_eq_false_iff_not]
    omega
  refine ⟨_, _, _, _, sort_left_to_right_env_alt _ hk, sort_lawnmower_env_alt _ hk,
    sort_left_to_right_alt _ hk, sort_lawnmower_alt _ hk, rfl, rfl, rfl, rfl, hr, hr,
    is_alternating_alt _ hk, is_alternating_alt _ hk, hiff, hiff, fun h2 hn => ?_,
    fun h1 => ?_⟩
  · have e : n % 2 ^ 63 = n := Nat.mod_eq_of_lt hn
    have hf : disk_state.is_sorted ⟨alt_row DISK_LIGHT DISK_DARK (n % 2 ^ 63)⟩ =
        some false := hiff.mpr (by rw [dark_count_alt]; omega)
    have hne : (sorted_disks.ctor ⟨sorted_row (n % 2 ^ 63)⟩
        (n % 2 ^ 63 * (n % 2 ^ 63 - 1) / 2)).after ≠
        ⟨alt_row DISK_LIGHT DISK_DARK (n % 2 ^ 63)⟩ := by
      intro heq
      have hsorted := is_sorted_sorted_row (n % 2 ^ 63)
      have heq' : (⟨sorted_row (n % 2 ^ 63)⟩ : disk_state) =
          ⟨alt_row DISK_LIGHT DISK_DARK (n % 2 ^ 63)⟩ := heq
      rw [heq', hf] at hsorted
      exact absurd hsorted (by simp)
    exact ⟨hf, hf, hne, hne⟩
  · have e : n % 2 ^ 63 = 1 := by omega
    have ht : disk_state.is_sorted ⟨alt_row DISK_LIGHT DISK_DARK (n % 2 ^ 63)⟩ =
        some true := by
      rw [hs, decide_eq_true e]
    exact ⟨ht, ht⟩

theorem sorts_leave_input_witness :
    1 ≤ 3 ∧ (3 < 2 ^ 63 → ∃ r, disk_state.ctor 3 = some r) ∧
      ∀ r, disk_state.ctor 3 = some r →
        ∃ e a e' b, sort_left_to_right_env r = some (e, a) ∧
          sort_lawnmower_env r = some (e', b) ∧
          sort_left_to_right r = some a ∧ sort_lawnmower r = some b ∧
          a.after = e.sorted ∧ b.after = e'.sorted ∧
          e.before = r ∧ e'.before = r ∧
          disk_state.ctor 3 = some e.before ∧ disk_state.ctor 3 = some e'.before ∧
          e.before.is_alternating = some true ∧ e'.before.is_alternating = some true ∧
          (e.before.is_sorted = some false ↔ 2 ≤ e.before.dark_count) ∧
          (e'.before.is_sorted = some false ↔ 2 ≤ e'.before.dark_count) ∧
          (2 ≤ 3 → 3 < 2 ^ 63 →
            e.before.is_sorted = some false ∧ e'.before.is_sorted = some false ∧
              a.after ≠ e.before ∧ b.after ≠ e'.before) ∧
          (3 = 1 → e.before.is_sorted = some true ∧ e'.before.is_sorted = some true) :=
  ⟨by decide, sorts_leave_input 3 (by decide)⟩

/-- C16 as stated fails at `n = 1`: the input row `L D` of both sorts is already sorted, and
`is_sorted()` on it is true. -/
theorem sorts_input_sorted_at_one :
    ∃ r a b, disk_state.ctor 1 = some r ∧ r._colors = [DISK_LIGHT, DISK_DARK] ∧
      sort_left_to_right r = some a ∧ sort_lawnmower r = some b ∧
      r.is_alternating = some true ∧ r.is_sorted = some true :=
  ⟨_, _, _, rfl, rfl, rfl, rfl, rfl, rfl⟩

/-- C17, as the code has it: for every `n ≥ 1` the swap count returned by `sort_lawnmower` on
`disk_state(n)` is `n (n - 1) / 2` reduced modulo `2 ^ 32`, hence `n (n - 1) / 2` itself
whenever `n ≤ 92682`, and it always equals the swap count returned by `sort_left_to_right`
on the same row. -/
theorem sort_lawnmower_swap_count (n : Nat) (h : 1 ≤ n) :
    (n < 2 ^ 63 → ∃ r a b, disk_state.ctor n = some r ∧ sort_lawnmower r = some a ∧
        sort_left_to_right r = some b ∧
        a.swap_count = n * (n - 1) / 2 % 2 ^ 32 ∧
        (n ≤ 92682 → a.swap_count = n * (n - 1) / 2) ∧
        a.swap_count = b.swap_count) ∧
      ∀ r, disk_state.ctor n = some r → ∃ a b, sort_lawnmower r = some a ∧
        sort_left_to_right r = some b ∧
        a.swap_count = n * (n - 1) / 2 % 2 ^ 32 ∧
        (n ≤ 92682 → a.swap_count = n * (n - 1) / 2) ∧
        a.swap_count = b.swap_count := by
  constructor
  · intro hn
    exact ⟨_, _, _, ctor_eq_small n h hn, sort_lawnmower_alt n h, sort_left_to_right_alt n h,
      rfl, fun hs => Nat.mod_eq_of_lt (triangle_small n hs), rfl⟩
  · intro r hr
    obtain ⟨hk, rfl⟩ := ctor_some n r hr
    have hm := triangle_mod n hk
    exact ⟨_, _, sort_lawnmower_alt _ hk, sort_left_to_right_alt _ hk, hm,
      fun hs => hm.trans (Nat.mod_eq_of_lt (triangle_small n hs)), rfl⟩

theorem sort_lawnmower_swap_count_witness :
    1 ≤ 5 ∧ (5 < 2 ^ 63 → ∃ r a b, disk_state.ctor 5 = some r ∧ sort_lawnmower r = some a ∧
        sort_left_to_right r = some b ∧
        a.swap_count = 5 * (5 - 1) / 2 % 2 ^ 32 ∧
        (5 ≤ 92682 → a.swap_count = 5 * (5 - 1) / 2) ∧
        a.swap_count = b.swap_count) ∧
      ∀ r, disk_state.ctor 5 = some r → ∃ a b, sort_lawnmower r = some a ∧
        sort_left_to_right r = some b ∧
        a.swap_count = 5 * (5 - 1) / 2 % 2 ^ 32 ∧
        (5 ≤ 92682 → a.swap_count = 5 * (5 - 1) / 2) ∧
        a.swap_count = b.swap_count :=
  ⟨by decide, sort_lawnmower_swap_count 5 (by decide)⟩

/-- C17 as stated fails at `n = 92683`: `sort_lawnmower` counts `4295022903` swaps and
returns the swap count `55607`. -/
theorem sort_lawnmower_swap_count_truncated :
    ∃ r res, disk_state.ctor 92683 = some r ∧ sort_lawnmower r = some res ∧
      res.swap_count = 55607 ∧ res.swap_count ≠ 92683 * (92683 - 1) / 2 := by
  refine ⟨_, _, ctor_eq_small 92683 (by decide) (by norm_num),
    sort_lawnmower_alt 92683 (by decide), ?_, ?_⟩
  · show 92683 * (92683 - 1) / 2 % 2 ^ 32 = 55607
    norm_num
  · show 92683 * (92683 - 1) / 2 % 2 ^ 32 ≠ 92683 * (92683 - 1) / 2
    norm_num

/-- C18: for every `n ≥ 1`, every call `get(j)`, `get(j+1)`, `get(j-1)`, `swap(j)` and
`swap(j-1)` made by the loops of `sort_left_to_right(disk_state(n))` and of
`sort_lawnmower(disk_state(n))` has its index, and for `swap` the index after it, below
`total_count()`, and `j-1` is only computed for `j ≥ 1`; both sorts run to their end. -/
theorem sort_calls_in_range (n : Nat) (h : 1 ≤ n) :
    (n < 2 ^ 63 → ∃ r, disk_state.ctor n = some r ∧
        (∀ c ∈ sort_left_to_right_calls r, c.in_range) ∧
        (∀ c ∈ sort_lawnmower_calls r, c.in_range) ∧
        loop_call.get_j 0 (2 * n) ∈ sort_left_to_right_calls r ∧
        (∃ a, sort_left_to_right r = some a) ∧ ∃ b, sort_lawnmower r = some b) ∧
      ∀ r, disk_state.ctor n = some r →
        (∀ c ∈ sort_left_to_right_calls r, c.in_range) ∧
        (∀ c ∈ sort_lawnmower_calls r, c.in_range) ∧
        loop_call.get_j 0 r.total_count ∈ sort_left_to_right_calls r ∧
        (∃ a, sort_left_to_right r = some a) ∧ ∃ b, sort_lawnmower r = some b := by
  constructor
  · intro hn
    exact ⟨_, ctor_eq_small n h hn, sort_left_to_right_calls_in_range _,
      sort_lawnmower_calls_in_range _, first_call_mem n h, ⟨_, sort_left_to_right_alt n h⟩,
      ⟨_, sort_lawnmower_alt n h⟩⟩
  · intro r hr
    obtain ⟨hk, rfl⟩ := ctor_some n r hr
    have ht : disk_state.total_count ⟨alt_row DISK_LIGHT DISK_DARK (n % 2 ^ 63)⟩ =
        2 * (n % 2 ^ 63) := alt_row_length _ _ _
    refine ⟨sort_left_to_right_calls_in_range _, sort_lawnmower_calls_in_range _, ?_,
      ⟨_, sort_left_to_right_alt _ hk⟩, ⟨_, sort_lawnmower_alt _ hk⟩⟩
    rw [ht]
    exact first_call_mem _ hk

theorem sort_calls_in_range_witness :
    1 ≤ 2 ∧ (2 < 2 ^ 63 → ∃ r, disk_state.ctor 2 = some r ∧
        (∀ c ∈ sort_left_to_right_calls r, c.in_range) ∧
        (∀ c ∈ sort_lawnmower_calls r, c.in_range) ∧
        loop_call.get_j 0 (2 * 2) ∈ sort_left_to_right_calls r ∧
        (∃ a, sort_left_to_right r = some a) ∧ ∃ b, sort_lawnmower r = some b) ∧
      ∀ r, disk_state.ctor 2 = some r →
        (∀ c ∈ sort_left_to_right_calls r, c.in_range) ∧
        (∀ c ∈ sort_lawnmower_calls r, c.in_range) ∧
        loop_call.get_j 0 r.total_count ∈ sort_left_to_right_calls r ∧
        (∃ a, sort_left_to_right r = some a) ∧ ∃ b, sort_lawnmower r = some b :=
  ⟨by decide, sort_calls_in_range 2 (by decide)⟩

/-- C19: for every `n ≥ 1` and every row reachable from `disk_state(n)` by valid `swap`
calls, `is_alternating()` returns true if and only if the row is `disk_state(n)`. -/
theorem is_alternating_iff_fresh (n : Nat) (h : 1 ≤ n) (r : disk_state)
    (hr : reachable n r) : r.is_alternating = some true ↔ disk_state.ctor n = some r := by
  have _hn := h
  obtain ⟨hk, _, _, _⟩ := reachable_counts n r hr
  rw [ctor_eq n hk]
  constructor
  · intro ha
    have e := is_alternating_reachable n r hr ha
    obtain ⟨l⟩ := r
    simp only at e
    rw [e]
  · intro e
    injection e with e
    rw [← e]
    exact is_alternating_alt _ hk

theorem is_alternating_iff_fresh_witness :
    1 ≤ 2 ∧ reachable 2 ⟨[DISK_LIGHT, DISK_LIGHT, DISK_DARK, DISK_DARK]⟩ ∧
      (disk_state.is_alternating ⟨[DISK_LIGHT, DISK_LIGHT, DISK_DARK, DISK_DARK]⟩ = some true ↔
        disk_state.ctor 2 = some ⟨[DISK_LIGHT, DISK_LIGHT, DISK_DARK, DISK_DARK]⟩) :=
  have hr : reachable 2 ⟨[DISK_LIGHT, DISK_LIGHT, DISK_DARK, DISK_DARK]⟩ :=
    reachable.step ⟨[DISK_LIGHT, DISK_DARK, DISK_LIGHT, DISK_DARK]⟩ _ 1
      (reachable.start _ rfl) rfl
  ⟨by decide, hr, is_alternating_iff_fresh 2 (by decide) _ hr⟩

/-- C20: the sort loops count in a `size_t` and `sorted_disks` stores a 32-bit `unsigned`: for
every `n ≥ 1`, `swap_count()` of `sort_left_to_right(disk_state(n))` is `n (n - 1) / 2`
modulo `2 ^ 32`, so it is `n (n - 1) / 2` if and only if `n ≤ 92682`; at `n = 92683` the
count `4295022903` is above `2 ^ 32 - 1`. -/
theorem swap_count_exact_iff (n : Nat) (h : 1 ≤ n) :
    (n < 2 ^ 63 → ∃ r res, disk_state.ctor n = some r ∧ sort_left_to_right r = some res ∧
        res.swap_count = n * (n - 1) / 2 % 2 ^ 32 ∧
        (res.swap_count = n * (n - 1) / 2 ↔ n ≤ 92682)) ∧
      (∀ r, disk_state.ctor n = some r → ∃ res, sort_left_to_right r = some res ∧
        res.swap_count = n * (n - 1) / 2 % 2 ^ 32 ∧
        (res.swap_count = n * (n - 1) / 2 ↔ n ≤ 92682)) ∧
      92683 * (92683 - 1) / 2 = 4295022903 ∧ 2 ^ 32 - 1 < 4295022903 := by
  have hiff : n * (n - 1) / 2 % 2 ^ 32 = n * (n - 1) / 2 ↔ n ≤ 92682 := by
    constructor
    · intro he
      by_contra hn
      have hbig := triangle_large n (by omega)
      have hlt : n * (n - 1) / 2 % 2 ^ 32 < 2 ^ 32 := Nat.mod_lt _ (by norm_num)
      omega
    · intro hn
      exact Nat.mod_eq_of_lt (triangle_small n hn)
  refine ⟨fun hn => ?_, fun r hr => ?_, by norm_num, by norm_num⟩
  · exact ⟨_, _, ctor_eq_small n h hn, sort_left_to_right_alt n h, rfl, hiff⟩
  · obtain ⟨hk, rfl⟩ := ctor_some n r hr
    have hm := triangle_mod n hk
    refine ⟨_, sort_left_to_right_alt _ hk, hm, ?_⟩
    have hc : (sorted_disks.ctor ⟨sorted_row (n % 2 ^ 63)⟩
        (n % 2 ^ 63 * (n % 2 ^ 63 - 1) / 2)).swap_count = n * (n - 1) / 2 % 2 ^ 32 := hm
    rw [hc]
    exact hiff

theorem swap_count_exact_iff_witness :
    1 ≤ 4 ∧ (4 < 2 ^ 63 → ∃ r res, disk_state.ctor 4 = some r ∧
        sort_left_to_right r = some res ∧
        res.swap_count = 4 * (4 - 1) / 2 % 2 ^ 32 ∧
        (res.swap_count = 4 * (4 - 1) / 2 ↔ 4 ≤ 92682)) ∧
      (∀ r, disk_state.ctor 4 = some r → ∃ res, sort_left_to_right r = some res ∧
        res.swap_count = 4 * (4 - 1) / 2 % 2 ^ 32 ∧
        (res.swap_count = 4 * (4 - 1) / 2 ↔ 4 ≤ 92682)) ∧
      92683 * (92683 - 1) / 2 = 4295022903 ∧ 2 ^ 32 - 1 < 4295022903 :=
  ⟨by decide, swap_count_exact_iff 4 (by decide)⟩

end Disks
